import Mathlib

/-!
# Verification development for the FAQ RAG server (`rag_handler.js`)

This file gives a shallow embedding of the RAG index subsystem of the
repository: the in-memory vector database (`SimpleMemoryVectorDatabase`),
the corpus hasher (`calculateQuestionHash` and friends), the change
classifier (`findChangedQuestions`), the reconciliation pass
(`initializeRAG`) and the search surface (`searchSimilarQuestions`), and
proves or refutes the frozen specification claims about them.

Modelling conventions:
* JavaScript numbers used as vector components are modelled by `ℝ`;
  integer indices by `ℕ`.
* JavaScript strings are Lean `String`s; `String.prototype.includes`,
  `Array.prototype.sort` (stable) and the `[INDEX:(\d+)]` regular
  expression are modelled by explicit recursive functions below.
* File-system state is explicit: a file is `Option` of its parsed
  content; for the vector cache `Option (Option Cache)` distinguishes
  a missing file (`none`), a present-but-unparsable file (`some none`)
  and a well-formed file (`some (some c)`).
* The external embedding framework (`@llm-tools/embedjs`) is a
  parameter: `addLoader` maps the tagged text handed to a `TextLoader`
  to the chunks it inserts (or an embedding error), `buildClears`
  records whether the framework's `build` step clears pre-loaded
  vectors, and `embedDims` is the embedder's declared dimensionality.
* `parseInt` on the digits captured by `[INDEX:(\d+)]` is modelled
  exactly on `ℕ` (float rounding of astronomically long digit runs is
  not modelled).
-/

namespace FaqServer

/-- A QA record as stored in `questions.json`.  `category`, `audience`
and `keywords` may be absent in the JSON; the code normalizes them with
`|| ''` resp. `|| []`, so they are modelled as `Option`. -/
structure QARecord where
  question : String
  answer : String
  category : Option String
  audience : Option String
  keywords : Option (List String)

/-- The metadata objects this code stores in `chunkMetadataMap`
(always with all fields set). -/
structure Metadata where
  index : ℕ
  question : String
  answer : String
  category : String
  audience : String
  keywords : List String

/-- Metadata attached to a stored vector.  Chunks written by the
embedding framework may or may not carry an `index` field; only the
`index` field is ever consulted by this code. -/
structure ChunkMeta where
  index : Option ℕ

/-- One entry of `SimpleMemoryVectorDatabase.vectors`:
`{ pageContent, vector, metadata }`. -/
structure StoredVector where
  pageContent : String
  vector : List ℝ
  metadata : Option ChunkMeta

/-- One element of the result list of `similaritySearch`:
`{ pageContent, metadata, score }`. -/
structure ScoredChunk where
  pageContent : String
  metadata : Option ChunkMeta
  score : ℝ

/-- The cache artifact `vectors_cache.json`:
`{ vectors, dimensions, savedAt }`. -/
structure Cache where
  vectors : List StoredVector
  dimensions : Option ℕ
  savedAt : String

/-- The mutable state of a `SimpleMemoryVectorDatabase`. -/
structure VectorDB where
  vectors : List StoredVector
  dimensions : Option ℕ

/- ### The `[INDEX:(\d+)]` tag scanner

`pageContent.match(/\[INDEX:(\d+)\]/)` finds the first position where
the literal `[INDEX:` is followed by a maximal nonempty ASCII digit run
which is immediately followed by `]`, and `parseInt` of the digit run is
taken.  (`\d` in JavaScript matches only `0-9`; `\d+` is greedy and,
being followed by the literal `]`, backtracking cannot split a digit
run, so the full run must be followed by `]`.) -/

/-- ASCII digit test (JavaScript `\d`). -/
def isAsciiDigit (c : Char) : Bool :=
  '0' ≤ c && c ≤ '9'

/-- Value of a digit character. -/
def digitVal (c : Char) : ℕ := c.toNat - '0'.toNat

/-- Decimal value of a digit run (`parseInt`, modelled exactly). -/
def natOfDigits (ds : List Char) : ℕ :=
  ds.foldl (fun acc c => 10 * acc + digitVal c) 0

/-- Split a maximal digit prefix off a character list. -/
def takeDigits : List Char → List Char × List Char
  | [] => ([], [])
  | c :: cs =>
    if isAsciiDigit c then
      let (ds, rest) := takeDigits cs
      (c :: ds, rest)
    else ([], c :: cs)

/-- Boolean prefix test on character lists. -/
def isPrefixOfChars : List Char → List Char → Bool
  | [], _ => true
  | _ :: _, [] => false
  | a :: as, b :: bs => a == b && isPrefixOfChars as bs

/-- Try to match `\[INDEX:(\d+)\]` anchored at the head of `l`. -/
def matchTagAt (l : List Char) : Option ℕ :=
  if isPrefixOfChars "[INDEX:".data l then
    let (ds, rest) := takeDigits (l.drop 7)
    match ds, rest with
    | [], _ => none
    | _ :: _, ']' :: _ => some (natOfDigits ds)
    | _ :: _, _ => none
  else none

/-- Scan for the first match of `\[INDEX:(\d+)\]` (regex `match`
semantics: try every start position left to right). -/
def extractTagAux : List Char → Option ℕ
  | [] => none
  | c :: rest =>
    match matchTagAt (c :: rest) with
    | some n => some n
    | none => extractTagAux rest

/-- `pageContent.match(/\[INDEX:(\d+)\]/)`, returning `parseInt` of the
capture when a match exists. -/
def extractIndexTag (s : String) : Option ℕ :=
  extractTagAux s.data

/- ### `deleteVectorsByIndex` -/

/-- The keep-predicate of the `filter` inside `deleteVectorsByIndex`:
a vector is kept unless the `[INDEX:n]` tag in its `pageContent` — or,
only when no tag matches, its `metadata.index` — equals the index being
deleted.  A vector for which neither source yields an index is always
kept. -/
def keepsVector (index : ℕ) (v : StoredVector) : Bool :=
  match extractIndexTag v.pageContent with
  | some vectorIndex => vectorIndex != index
  | none =>
    match v.metadata with
    | some m =>
      match m.index with
      | some k => k != index
      | none => true
    | none => true

/-- `deleteVectorsByIndex(index)`: filter the vectors, return the new
vector list together with `beforeLength - vectors.length`. -/
def deleteVectorsByIndex (vectors : List StoredVector) (index : ℕ) :
    List StoredVector × ℕ :=
  let kept := vectors.filter (keepsVector index)
  (kept, vectors.length - kept.length)

/- ### `loadFromFile`

`loadFromFile` reads and `JSON.parse`s the cache file.  A missing file
(`ENOENT`) logs an info line and returns `false`; any other failure
(e.g. a parse error on a corrupt file) logs an error line and also
returns `false`; in both cases the in-memory state is untouched.  On
success the in-memory vectors and dimensions are replaced and `true` is
returned. -/
def loadFromFile (db : VectorDB) (file : Option (Option Cache)) :
    VectorDB × Bool :=
  match file with
  | none => (db, false)
  | some none => (db, false)
  | some (some cache) => (⟨cache.vectors, cache.dimensions⟩, true)

/- ### Cosine similarity and `similaritySearch` -/

/-- The in-order sum of pairwise products computed by the loop in
`cosineSimilarity` (the loop runs over indices of `vecA`, which is only
reached when both vectors have the same length). -/
def dotList (a b : List ℝ) : ℝ :=
  (List.zipWith (· * ·) a b).sum

/-- `cosineSimilarity(vecA, vecB)`: `0` on length mismatch, `0` when
either sum of squares is zero, else `dot / (√normA * √normB)`. -/
noncomputable def cosineSimilarity (vecA vecB : List ℝ) : ℝ :=
  if vecA.length ≠ vecB.length then 0
  else
    let dotProduct := dotList vecA vecB
    let normA := dotList vecA vecA
    let normB := dotList vecB vecB
    if normA = 0 ∨ normB = 0 then 0
    else dotProduct / (Real.sqrt normA * Real.sqrt normB)

/-- The scoring map of `similaritySearch`. -/
noncomputable def scoreChunk (queryVector : List ℝ) (item : StoredVector) :
    ScoredChunk :=
  ⟨item.pageContent, item.metadata, cosineSimilarity queryVector item.vector⟩

/-- Descending-score order used by
`.sort((a, b) => b.score - a.score)`. -/
def scoreGE (a b : ScoredChunk) : Prop := b.score ≤ a.score

noncomputable instance : DecidableRel scoreGE := fun a b =>
  inferInstanceAs (Decidable (b.score ≤ a.score))

instance : IsTotal ScoredChunk scoreGE := ⟨fun a b => le_total b.score a.score⟩

instance : IsTrans ScoredChunk scoreGE :=
  ⟨fun _ _ _ h h' => le_trans h' h⟩

/-- `similaritySearch(queryVector, topK)`: score every stored vector,
sort descending by score (JavaScript's `Array.prototype.sort` is
stable, so insertion order breaks ties), truncate to `topK`. -/
noncomputable def similaritySearch (queryVector : List ℝ)
    (vectors : List StoredVector) (topK : ℕ) : List ScoredChunk :=
  (List.insertionSort scoreGE (vectors.map (scoreChunk queryVector))).take topK

/- ### MD5 (`crypto.createHash('md5')`)

A direct implementation of RFC 1321 over `ℕ` with explicit `% 2^32`
masking; input is the UTF-8 byte sequence of the hashed string (the
default encoding of `hash.update(string)`), output the lowercase-hex
rendering of the 16 digest bytes. -/

/-- Truncate to 32 bits. -/
def w32 (n : ℕ) : ℕ := n % 4294967296

/-- Bitwise complement on 32 bits. -/
def not32 (n : ℕ) : ℕ := Nat.xor (w32 n) 4294967295

/-- 32-bit left rotation. -/
def rotl32 (x s : ℕ) : ℕ :=
  Nat.lor (w32 (Nat.shiftLeft x s)) (Nat.shiftRight (w32 x) (32 - s))

/-- Round function F. -/
def md5F (b c d : ℕ) : ℕ := Nat.lor (Nat.land b c) (Nat.land (not32 b) d)

/-- Round function G. -/
def md5G (b c d : ℕ) : ℕ := Nat.lor (Nat.land d b) (Nat.land (not32 d) c)

/-- Round function H. -/
def md5H (b c d : ℕ) : ℕ := Nat.xor b (Nat.xor c d)

/-- Round function I. -/
def md5I (b c d : ℕ) : ℕ := Nat.xor c (Nat.lor b (not32 d))

/-- The 64 sine-derived constants. -/
def md5K : List ℕ :=
  [0xd76aa478, 0xe8c7b756, 0x242070db, 0xc1bdceee,
   0xf57c0faf, 0x4787c62a, 0xa8304613, 0xfd469501,
   0x698098d8, 0x8b44f7af, 0xffff5bb1, 0x895cd7be,
   0x6b901122, 0xfd987193, 0xa679438e, 0x49b40821,
   0xf61e2562, 0xc040b340, 0x265e5a51, 0xe9b6c7aa,
   0xd62f105d, 0x02441453, 0xd8a1e681, 0xe7d3fbc8,
   0x21e1cde6, 0xc33707d6, 0xf4d50d87, 0x455a14ed,
   0xa9e3e905, 0xfcefa3f8, 0x676f02d9, 0x8d2a4c8a,
   0xfffa3942, 0x8771f681, 0x6d9d6122, 0xfde5380c,
   0xa4beea44, 0x4bdecfa9, 0xf6bb4b60, 0xbebfbc70,
   0x289b7ec6, 0xeaa127fa, 0xd4ef3085, 0x04881d05,
   0xd9d4d039, 0xe6db99e5, 0x1fa27cf8, 0xc4ac5665,
   0xf4292244, 0x432aff97, 0xab9423a7, 0xfc93a039,
   0x655b59c3, 0x8f0ccc92, 0xffeff47d, 0x85845dd1,
   0x6fa87e4f, 0xfe2ce6e0, 0xa3014314, 0x4e0811a1,
   0xf7537e82, 0xbd3af235, 0x2ad7d2bb, 0xeb86d391]

/-- The 64 per-step rotation amounts. -/
def md5S : List ℕ :=
  [7, 12, 17, 22, 7, 12, 17, 22, 7, 12, 17, 22, 7, 12, 17, 22,
   5, 9, 14, 20, 5, 9, 14, 20, 5, 9, 14, 20, 5, 9, 14, 20,
   4, 11, 16, 23, 4, 11, 16, 23, 4, 11, 16, 23, 4, 11, 16, 23,
   6, 10, 15, 21, 6, 10, 15, 21, 6, 10, 15, 21, 6, 10, 15, 21]

/-- One MD5 step. -/
def md5Step (m : List ℕ) (st : ℕ × ℕ × ℕ × ℕ) (i : ℕ) : ℕ × ℕ × ℕ × ℕ :=
  let (a, b, c, d) := st
  let fg : ℕ × ℕ :=
    if i < 16 then (md5F b c d, i)
    else if i < 32 then (md5G b c d, (5 * i + 1) % 16)
    else if i < 48 then (md5H b c d, (3 * i + 5) % 16)
    else (md5I b c d, (7 * i) % 16)
  let tmp := w32 (a + fg.1 + md5K.getD i 0 + m.getD fg.2 0)
  (d, w32 (b + rotl32 tmp (md5S.getD i 0)), b, c)

/-- Decode a 64-byte block into 16 little-endian 32-bit words. -/
def md5Words : List ℕ → List ℕ
  | b0 :: b1 :: b2 :: b3 :: rest =>
    (b0 + 256 * b1 + 65536 * b2 + 16777216 * b3) :: md5Words rest
  | _ => []

/-- Process one 64-byte block. -/
def md5Block (st : ℕ × ℕ × ℕ × ℕ) (block : List ℕ) : ℕ × ℕ × ℕ × ℕ :=
  let m := md5Words block
  let (a, b, c, d) := (List.range 64).foldl (md5Step m) st
  let (a0, b0, c0, d0) := st
  (w32 (a0 + a), w32 (b0 + b), w32 (c0 + c), w32 (d0 + d))

/-- Split a byte list into 64-byte blocks (structural recursion on a
fuel bound so that the definition reduces; the fuel `l.length` always
suffices since every step drops 64 bytes). -/
def md5ChunksAux : ℕ → List ℕ → List (List ℕ)
  | 0, l => [l]
  | fuel + 1, l =>
    if l.length ≤ 64 then [l]
    else l.take 64 :: md5ChunksAux fuel (l.drop 64)

/-- Split a byte list into 64-byte blocks. -/
def md5Chunks (l : List ℕ) : List (List ℕ) :=
  md5ChunksAux l.length l

/-- MD5 padding: `0x80`, zeros to 56 mod 64, 8-byte little-endian bit
length. -/
def md5Pad (msg : List ℕ) : List ℕ :=
  let zeros := (64 - (msg.length + 9) % 64) % 64
  let bitLen := (msg.length * 8) % 18446744073709551616
  msg ++ 0x80 :: List.replicate zeros 0 ++
    [bitLen % 256, bitLen / 256 % 256, bitLen / 65536 % 256,
     bitLen / 16777216 % 256, bitLen / 4294967296 % 256,
     bitLen / 1099511627776 % 256, bitLen / 281474976710656 % 256,
     bitLen / 72057594037927936 % 256]

/-- The 4 little-endian bytes of a 32-bit word. -/
def wordLEBytes (w : ℕ) : List ℕ :=
  [w % 256, w / 256 % 256, w / 65536 % 256, w / 16777216 % 256]

/-- The 16 digest bytes of a message. -/
def md5Bytes (msg : List ℕ) : List ℕ :=
  let init : ℕ × ℕ × ℕ × ℕ := (0x67452301, 0xefcdab89, 0x98badcfe, 0x10325476)
  let (a, b, c, d) := (md5Chunks (md5Pad msg)).foldl md5Block init
  wordLEBytes a ++ wordLEBytes b ++ wordLEBytes c ++ wordLEBytes d

/-- Lowercase hex digit. -/
def hexChar (n : ℕ) : Char := "0123456789abcdef".data.getD (n % 16) '0'

/-- Two lowercase hex digits of a byte. -/
def byteHexChars (b : ℕ) : List Char := [hexChar (b / 16), hexChar b]

/-- UTF-8 encoding of one character. -/
def utf8Char (c : Char) : List ℕ :=
  let n := c.toNat
  if n < 128 then [n]
  else if n < 2048 then [192 + n / 64, 128 + n % 64]
  else if n < 65536 then [224 + n / 4096, 128 + n / 64 % 64, 128 + n % 64]
  else [240 + n / 262144, 128 + n / 4096 % 64, 128 + n / 64 % 64, 128 + n % 64]

/-- UTF-8 byte sequence of a string. -/
def utf8Bytes (s : String) : List ℕ :=
  (s.data.map utf8Char).flatten

/-- `crypto.createHash('md5').update(s).digest('hex')`. -/
def md5hex (s : String) : String :=
  ⟨((md5Bytes (utf8Bytes s)).map byteHexChars).flatten⟩

/- ### JavaScript default `Array.prototype.sort` on strings

The default comparator converts elements to strings and compares their
UTF-16 code unit sequences lexicographically. -/

/-- UTF-16 code units of one character (a surrogate pair above the
basic multilingual plane). -/
def charUtf16 (c : Char) : List ℕ :=
  let n := c.toNat
  if n < 65536 then [n]
  else [55296 + (n - 65536) / 1024, 56320 + (n - 65536) % 1024]

/-- UTF-16 code unit sequence of a string. -/
def utf16Units (s : String) : List ℕ :=
  (s.data.map charUtf16).flatten

/-- Lexicographic `≤` on code unit sequences. -/
def lexLe : List ℕ → List ℕ → Bool
  | [], _ => true
  | _ :: _, [] => false
  | a :: as, b :: bs =>
    if a < b then true else if b < a then false else lexLe as bs

/-- The string order used by JavaScript's default sort. -/
def jsLe (a b : String) : Prop := lexLe (utf16Units a) (utf16Units b) = true

instance : DecidableRel jsLe := fun a b =>
  inferInstanceAs (Decidable (lexLe (utf16Units a) (utf16Units b) = true))

/-- `keywords.sort()`. -/
def jsSortStrings (l : List String) : List String :=
  List.insertionSort jsLe l

/- ### `JSON.stringify` on the canonical object -/

/-- `JSON.stringify` escaping of one character: `"` and `\` are
escaped, the control characters `\b \t \n \f \r` use their short forms,
the remaining code points below `0x20` become `\u00xx` (lowercase hex),
and every other character is copied verbatim. -/
def jsonEscapeChar (c : Char) : List Char :=
  if c = '"' then ['\\', '"']
  else if c = '\\' then ['\\', '\\']
  else if c = Char.ofNat 8 then ['\\', 'b']
  else if c = Char.ofNat 9 then ['\\', 't']
  else if c = Char.ofNat 10 then ['\\', 'n']
  else if c = Char.ofNat 12 then ['\\', 'f']
  else if c = Char.ofNat 13 then ['\\', 'r']
  else if c.toNat < 32 then
    ['\\', 'u', '0', '0', hexChar (c.toNat / 16), hexChar c.toNat]
  else [c]

/-- `JSON.stringify` string-body escaping. -/
def jsonEscape (s : String) : String :=
  ⟨(s.data.map jsonEscapeChar).flatten⟩

/-- A JSON string literal: `"` + escaped body + `"`. -/
def jsonStr (s : String) : String :=
  "\"" ++ jsonEscape s ++ "\""

/-- The `keywords` member of the canonical object:
`(questionObj.keywords || []).sort().join(',')`. -/
def sortedKeywordsJoined (r : QARecord) : String :=
  String.intercalate "," (jsSortStrings (r.keywords.getD []))

/-- The canonical JSON text hashed by `calculateQuestionHash`:
`JSON.stringify({question, answer, category: category || '',
audience: audience || '', keywords: sortedJoined})` with the keys in
insertion order and no added whitespace. -/
def canonicalContent (r : QARecord) : String :=
  "\x7b\"question\":" ++ jsonStr r.question ++
  ",\"answer\":" ++ jsonStr r.answer ++
  ",\"category\":" ++ jsonStr (r.category.getD "") ++
  ",\"audience\":" ++ jsonStr (r.audience.getD "") ++
  ",\"keywords\":" ++ jsonStr (sortedKeywordsJoined r) ++ "\x7d"

/-- `calculateQuestionHash(questionObj)`. -/
def calculateQuestionHash (r : QARecord) : String :=
  md5hex (canonicalContent r)

/- ### Ledger helpers -/

/-- `calculateQuestionsHash()`: MD5 of the raw bytes of
`questions.json`. -/
def calculateQuestionsHash (raw : String) : String := md5hex raw

/-- Per-index hashes starting at index `k` (helper). -/
def indicesHashFrom (k : ℕ) : List QARecord → List (ℕ × String)
  | [] => []
  | q :: qs => (k, calculateQuestionHash q) :: indicesHashFrom (k + 1) qs

/-- `calculateQuestionsIndicesHash()`: the map `index ↦ hash of the
record at that index`, enumerated in ascending index order (JavaScript
objects iterate integer-like keys in ascending order). -/
def currentIndicesHashOf (questions : List QARecord) : List (ℕ × String) :=
  indicesHashFrom 0 questions

/-- Object member lookup on the modelled hash map. -/
def lookupHash (l : List (ℕ × String)) (i : ℕ) : Option String :=
  (l.find? fun p => p.1 == i).map (·.2)

/-- JavaScript truthiness of a possibly-absent string member
(`undefined` and `''` are falsy). -/
def jsTruthy : Option String → Bool
  | none => false
  | some s => s != ""

/-- The result record of `findChangedQuestions`. -/
structure Changes where
  changed : List ℕ
  newIndices : List ℕ
  deletedIndices : List ℕ
  allChanged : List ℕ
deriving DecidableEq

/-- The first `forEach` of `findChangedQuestions`: for each current
index, if the stored hash is falsy or differs, classify the index as
changed (stored present) or new (stored absent). -/
def classifyCurrent (stored : List (ℕ × String)) :
    List (ℕ × String) → List ℕ × List ℕ
  | [] => ([], [])
  | (i, h) :: rest =>
    let (cs, ns) := classifyCurrent stored rest
    let st := lookupHash stored i
    if !jsTruthy st || st != some h then
      if jsTruthy st then (i :: cs, ns) else (cs, i :: ns)
    else (cs, ns)

/-- The second `forEach`: stored indices whose current hash is falsy
are deleted. -/
def findDeleted (current : List (ℕ × String)) :
    List (ℕ × String) → List ℕ
  | [] => []
  | (i, _) :: rest =>
    if !jsTruthy (lookupHash current i) then i :: findDeleted current rest
    else findDeleted current rest

/-- `findChangedQuestions()` on the current and stored per-index hash
maps. -/
def findChangedQuestions (current stored : List (ℕ × String)) : Changes :=
  let (changed, newIndices) := classifyCurrent stored current
  let deletedIndices := findDeleted current stored
  ⟨changed, newIndices, deletedIndices, changed ++ newIndices⟩

/- ### Searchable text and the inline metadata tag -/

/-- `createSearchableText(questionObj)`: question, keywords, category,
audience, falsy (empty) parts dropped, joined by spaces. -/
def createSearchableText (r : QARecord) : String :=
  String.intercalate " "
    (((r.question :: r.keywords.getD []) ++
      [r.category.getD "", r.audience.getD ""]).filter (· != ""))

/-- The tagged text handed to the `TextLoader` for record `i`. -/
def textWithMetadata (i : ℕ) (r : QARecord) : String :=
  "[INDEX:" ++ toString i ++ "][QUESTION:" ++ r.question ++
  "][ANSWER:" ++ r.answer ++ "][CATEGORY:" ++ r.category.getD "" ++
  "][AUDIENCE:" ++ r.audience.getD "" ++ "][KEYWORDS:" ++
  String.intercalate "," (r.keywords.getD []) ++ "]\n\n" ++
  createSearchableText r

/-- The metadata object built for record `i` (stored in
`chunkMetadataMap` under key `question_${i}`). -/
def metadataOf (i : ℕ) (r : QARecord) : Metadata :=
  ⟨i, r.question, r.answer, r.category.getD "", r.audience.getD "",
   r.keywords.getD []⟩

/- ### `searchSimilarQuestions`

`ragApp.search(userQuestion)` is external framework code
(`@llm-tools/embedjs`): it embeds the query and collects scored chunks
from the vector database.  Its result list is therefore a parameter
(`results`) here; everything after it — `results.slice(0, topK)` and
the per-result resolution — is repository code and modelled exactly. -/

/-- One element of the list returned by `searchSimilarQuestions`. -/
structure SimilarQuestion where
  index : Option ℕ
  question : String
  answer : String
  category : String
  audience : String
  keywords : List String
  similarity : ℝ
  rank : ℕ

/-- `String.prototype.includes` (substring containment). -/
def containsChars (needle : List Char) : List Char → Bool
  | [] => isPrefixOfChars needle []
  | c :: rest => isPrefixOfChars needle (c :: rest) || containsChars needle rest

/-- `pageContent.includes(sub)`. -/
def stringIncludes (pageContent sub : String) : Bool :=
  containsChars sub.data pageContent.data

/-- The `chunkMetadataMap` scan fallback: first entry (in insertion
order) whose `question` or `answer` occurs in the page content. -/
def resolveFromMap (cm : List (ℕ × Metadata)) (pageContent : String) :
    Option Metadata :=
  (cm.find? fun p =>
    stringIncludes pageContent p.2.question ||
    stringIncludes pageContent p.2.answer).map (·.2)

/-- Conversion of one raw search result at position `idx` (0-based) of
the truncated result list: recover an index from the `[INDEX:n]` tag,
else from `metadata.index`, else from the metadata map scan; resolve it
against `questionsData`; fields stay empty when resolution fails. -/
def toSimilarQuestion (cm : List (ℕ × Metadata)) (qd : List QARecord)
    (idx : ℕ) (r : ScoredChunk) : SimilarQuestion :=
  match extractIndexTag r.pageContent with
  | some n =>
    match qd[n]? with
    | some q =>
      ⟨some n, q.question, q.answer, q.category.getD "", q.audience.getD "",
       q.keywords.getD [], r.score, idx + 1⟩
    | none => ⟨some n, "", "", "", "", [], r.score, idx + 1⟩
  | none =>
    match r.metadata.bind (·.index) with
    | some k =>
      match qd[k]? with
      | some q =>
        ⟨some k, q.question, q.answer, q.category.getD "",
         q.audience.getD "", q.keywords.getD [], r.score, idx + 1⟩
      | none => ⟨some k, "", "", "", "", [], r.score, idx + 1⟩
    | none =>
      match resolveFromMap cm r.pageContent with
      | some m =>
        ⟨some m.index, m.question, m.answer, m.category, m.audience,
         m.keywords, r.score, idx + 1⟩
      | none => ⟨none, "", "", "", "", [], r.score, idx + 1⟩

/-- `limitedResults.map((result, idx) => ...)` starting at position
`idx`. -/
def convertResults (cm : List (ℕ × Metadata)) (qd : List QARecord) :
    ℕ → List ScoredChunk → List SimilarQuestion
  | _, [] => []
  | idx, r :: rest =>
    toSimilarQuestion cm qd idx r :: convertResults cm qd (idx + 1) rest

/-- `searchSimilarQuestions(userQuestion, topK)` after the external
`ragApp.search` call returned `results`: truncate to `topK`, then map
each result to a `SimilarQuestion`. -/
def searchSimilarQuestions (results : List ScoredChunk) (topK : ℕ)
    (cm : List (ℕ × Metadata)) (qd : List QARecord) : List SimilarQuestion :=
  convertResults cm qd 0 (results.take topK)

/- ### The reconciliation pass (`initializeRAG`)

External collaborators are parameters collected in `Env`:
`addLoader text` is the effect of `ragApp.addLoader(new TextLoader({text}),
false)` — the chunks the framework inserts into the vector database for
that text, or an embedding error, in which case the exception propagates
out of `initializeRAG` (the outer `catch` logs and rethrows);
`buildClears` records whether `RAGApplicationBuilder().build()` clears
previously loaded vectors (the observed framework behavior the code
defends against); `embedDims` is the dimensionality the framework
passes to `vectorDatabase.init` during `build`. -/

/-- Embedding failure kinds (`EmbedTransport` / `EmbedRejected`). -/
inductive EmbedError where
  | transport
  | rejected
deriving DecidableEq, Repr

/-- Observable side effects of one pass, in order. -/
inductive Event where
  | embedCall (i : ℕ)
  | wroteCache
  | wroteIndicesHash
  | wroteHash
deriving DecidableEq, Repr

/-- The external collaborators of `initializeRAG`. -/
structure Env where
  addLoader : String → Except EmbedError (List StoredVector)
  buildClears : Bool
  embedDims : ℕ

/-- Module state plus file-system state.  `questionsRaw` / `questions`
are the raw bytes and parsed content of `questions.json` (parsing is
assumed to succeed; the parse is not re-modelled).  `store` /
`storeDims` are the in-memory vector database currently referenced by
`ragApp`. -/
structure SysState where
  questionsRaw : String
  questions : List QARecord
  cacheFile : Option (Option Cache)
  indicesHashFile : Option (List (ℕ × String))
  hashFile : Option String
  questionsData : Option (List QARecord)
  chunkMetadataMap : List (ℕ × Metadata)
  isInitialized : Bool
  store : List StoredVector
  storeDims : Option ℕ

/-- Result of one `initializeRAG` call: final state, event trace, and
the rethrown error if the pass failed. -/
structure RunResult where
  state : SysState
  trace : List Event
  error : Option EmbedError

/-- `Map.prototype.set`: replace in place if the key exists, append
otherwise. -/
def mapSet (m : List (ℕ × Metadata)) (k : ℕ) (v : Metadata) :
    List (ℕ × Metadata) :=
  if m.any (·.1 == k) then m.map fun p => if p.1 == k then (k, v) else p
  else m ++ [(k, v)]

/-- The `for` loops that store metadata for every record. -/
def setAllMetadata (cm : List (ℕ × Metadata)) (qd : List QARecord) :
    List (ℕ × Metadata) :=
  qd.enum.foldl (fun acc p => mapSet acc p.1 (metadataOf p.1 p.2)) cm

/-- The loops deleting vectors for a list of indices. -/
def deleteLoop : List ℕ → List StoredVector → List StoredVector
  | [], store => store
  | i :: rest, store => deleteLoop rest (deleteVectorsByIndex store i).1

/-- Result of the embedding loop. -/
structure LoopResult where
  store : List StoredVector
  cm : List (ℕ × Metadata)
  trace : List Event
  error : Option EmbedError

/-- The embedding loop: for each index in order, store its metadata,
hand the tagged text to `addLoader`; on failure the exception aborts
the loop (and the whole pass). -/
def embedLoop (addLoader : String → Except EmbedError (List StoredVector))
    (qd : List QARecord) :
    List ℕ → List StoredVector → List (ℕ × Metadata) → LoopResult
  | [], store, cm => ⟨store, cm, [], none⟩
  | i :: rest, store, cm =>
    let q := (qd[i]?).getD ⟨"", "", none, none, none⟩
    let cm' := mapSet cm i (metadataOf i q)
    match addLoader (textWithMetadata i q) with
    | .error e => ⟨store, cm', [.embedCall i], some e⟩
    | .ok chunks =>
      let r := embedLoop addLoader qd rest (store ++ chunks) cm'
      ⟨r.store, r.cm, .embedCall i :: r.trace, r.error⟩

/-- The state of the fresh vector database after `loadFromFile`, the
framework `build` (which sets the embedder's dimensionality and may
clear the vectors), and the defensive reload from cache when the build
cleared a nonempty cache; paired with `cacheLoaded`. -/
def dbAfterBuild (env : Env) (s : SysState) : VectorDB × Bool :=
  let loaded := loadFromFile ⟨[], none⟩ s.cacheFile
  let db1 : VectorDB :=
    ⟨if env.buildClears then [] else loaded.1.vectors, some env.embedDims⟩
  let db2 : VectorDB :=
    if loaded.2 ∧ loaded.1.vectors.length > 0 ∧ db1.vectors.length = 0 then
      (loadFromFile db1 s.cacheFile).1
    else db1
  (db2, loaded.2)

/-- The no-change branch of `initializeRAG`: refresh the metadata map,
mark initialized, rewrite ledger and corpus digest (the cache file is
not touched). -/
def noChangeResult (s0 : SysState) (qd : List QARecord)
    (current : List (ℕ × String)) (db2 : VectorDB) : RunResult :=
  ⟨{ s0 with
      chunkMetadataMap := setAllMetadata s0.chunkMetadataMap qd,
      isInitialized := true,
      indicesHashFile := some current,
      hashFile := some (calculateQuestionsHash s0.questionsRaw),
      store := db2.vectors, storeDims := db2.dimensions },
    [.wroteIndicesHash, .wroteHash], none⟩

/-- The incremental branch: drop vectors of deleted and changed
indices, embed changed and new indices in ascending order, then (only
on success) write cache, ledger and digest. -/
def incrementalResult (env : Env) (now : String) (s0 : SysState)
    (qd : List QARecord) (current : List (ℕ × String)) (changes : Changes)
    (db2 : VectorDB) : RunResult :=
  let afterDel :=
    deleteLoop changes.changed (deleteLoop changes.deletedIndices db2.vectors)
  let toProcess :=
    List.insertionSort (· ≤ ·) (changes.changed ++ changes.newIndices)
  let lr := embedLoop env.addLoader qd toProcess afterDel s0.chunkMetadataMap
  match lr.error with
  | some e =>
    ⟨{ s0 with
        chunkMetadataMap := lr.cm,
        store := lr.store,
        storeDims := db2.dimensions }, lr.trace, some e⟩
  | none =>
    ⟨{ s0 with
        chunkMetadataMap := setAllMetadata lr.cm qd,
        isInitialized := true,
        cacheFile := some (some ⟨lr.store, db2.dimensions, now⟩),
        indicesHashFile := some current,
        hashFile := some (calculateQuestionsHash s0.questionsRaw),
        store := lr.store, storeDims := db2.dimensions },
      lr.trace ++ [.wroteCache, .wroteIndicesHash, .wroteHash], none⟩

/-- The full-rebuild branch: a second `build` on the same database,
embed every record, then (only on success) write cache, ledger and
digest. -/
def rebuildResult (env : Env) (now : String) (s0 : SysState)
    (qd : List QARecord) (db2 : VectorDB) : RunResult :=
  let db3 : VectorDB :=
    ⟨if env.buildClears then [] else db2.vectors, some env.embedDims⟩
  let lr := embedLoop env.addLoader qd (List.range qd.length) db3.vectors
      s0.chunkMetadataMap
  match lr.error with
  | some e =>
    ⟨{ s0 with
        chunkMetadataMap := lr.cm,
        store := lr.store,
        storeDims := db3.dimensions }, lr.trace, some e⟩
  | none =>
    ⟨{ s0 with
        chunkMetadataMap := lr.cm,
        isInitialized := true,
        cacheFile := some (some ⟨lr.store, db3.dimensions, now⟩),
        indicesHashFile := some (currentIndicesHashOf qd),
        hashFile := some (calculateQuestionsHash s0.questionsRaw),
        store := lr.store, storeDims := db3.dimensions },
      lr.trace ++ [.wroteCache, .wroteIndicesHash, .wroteHash], none⟩

/-- `initializeRAG()`. -/
def runInitializeRAG (env : Env) (now : String) (s : SysState) : RunResult :=
  if s.isInitialized then ⟨s, [], none⟩
  else
    let qd := s.questions
    let s0 := { s with questionsData := some qd }
    let built := dbAfterBuild env s
    if built.2 ∧ 0 < built.1.vectors.length then
      let current := currentIndicesHashOf qd
      let changes := findChangedQuestions current (s.indicesHashFile.getD [])
      if changes.allChanged = [] ∧ changes.deletedIndices = [] then
        noChangeResult s0 qd current built.1
      else incrementalResult env now s0 qd current changes built.1
    else rebuildResult env now s0 qd built.1

/-- One reconciliation run (`refreshRAG()`: reset the initialization
flag, then `initializeRAG()`). -/
def reconcile (env : Env) (now : String) (s : SysState) : RunResult :=
  runInitializeRAG env now { s with isInitialized := false }

/-! ## Theorems -/

/- ### C10: `deleteVectorsByIndex` -/

/-- The payload index recoverable from a stored vector as the claim
describes it: the `[INDEX:n]` tag in the chunk text, or failing that
`metadata.index`. -/
def recoverableIndex (v : StoredVector) : Option ℕ :=
  match extractIndexTag v.pageContent with
  | some n => some n
  | none => v.metadata.bind (·.index)

lemma keepsVector_eq_decide (i : ℕ) (v : StoredVector) :
    keepsVector i v = decide (recoverableIndex v ≠ some i) := by
  unfold keepsVector recoverableIndex
  cases extractIndexTag v.pageContent with
  | some n => by_cases h : n = i <;> simp [h, bne]
  | none =>
    cases v.metadata with
    | none => simp
    | some m =>
      obtain ⟨mi⟩ := m
      cases mi with
      | none => simp
      | some k => by_cases h : k = i <;> simp [h, bne]

lemma length_sub_length_filter (p : StoredVector → Bool)
    (l : List StoredVector) :
    l.length - (l.filter p).length = (l.filter fun v => !(p v)).length := by
  induction l with
  | nil => rfl
  | cons h t ih =>
    have hle := List.length_filter_le p t
    by_cases hp : p h = true <;>
      simp [List.filter_cons, hp] <;> omega

/-- C10: `deleteVectorsByIndex(i)` keeps exactly the stored vectors
whose recoverable payload index (tag first, `metadata.index` as
fallback) is not `i`, returns the number of vectors whose recoverable
index is `i`, and never deletes a vector whose index is recoverable
from neither source. -/
theorem deleteVectorsByIndex_spec (vectors : List StoredVector) (i : ℕ) :
    (deleteVectorsByIndex vectors i).1 =
      vectors.filter (fun v => decide (recoverableIndex v ≠ some i))
  ∧ (deleteVectorsByIndex vectors i).2 =
      (vectors.filter fun v => decide (recoverableIndex v = some i)).length
  ∧ ∀ v ∈ vectors, recoverableIndex v = none →
      v ∈ (deleteVectorsByIndex vectors i).1 := by
  have hkeep : (fun v => keepsVector i v) =
      (fun v => decide (recoverableIndex v ≠ some i)) := by
    funext v; exact keepsVector_eq_decide i v
  have h1 : (deleteVectorsByIndex vectors i).1 =
      vectors.filter (fun v => decide (recoverableIndex v ≠ some i)) := by
    show vectors.filter (keepsVector i) = _
    rw [show keepsVector i = fun v => keepsVector i v from rfl, hkeep]
  refine ⟨h1, ?_, ?_⟩
  · show vectors.length - (vectors.filter (keepsVector i)).length = _
    rw [show keepsVector i = fun v => keepsVector i v from rfl, hkeep,
      length_sub_length_filter]
    congr 1
    apply List.filter_congr
    intro v _
    simp
  · intro v hv hnone
    rw [h1]
    rw [List.mem_filter]
    exact ⟨hv, by simp [hnone]⟩

/-- Witness for C10 at a concrete store: one vector carries the tag
`[INDEX:3]`, one only `metadata.index = 3`, one is unidentifiable. -/
theorem deleteVectorsByIndex_spec_witness :
    (deleteVectorsByIndex
        [⟨"[INDEX:3]a", [], none⟩, ⟨"no tag", [], some ⟨some 3⟩⟩,
         ⟨"no tag", [], none⟩] 3).2 = 2
  ∧ ⟨"no tag", [], none⟩ ∈ (deleteVectorsByIndex
        [⟨"[INDEX:3]a", [], none⟩, ⟨"no tag", [], some ⟨some 3⟩⟩,
         ⟨"no tag", [], none⟩] 3).1 := by
  have h := deleteVectorsByIndex_spec
    [⟨"[INDEX:3]a", [], none⟩, ⟨"no tag", [], some ⟨some 3⟩⟩,
     ⟨"no tag", [], none⟩] 3
  refine ⟨?_, h.2.2 ⟨"no tag", [], none⟩ (by simp) (by rfl)⟩
  rw [h.2.1]
  rfl

/- ### C8: absence vs corruption in `loadFromFile` -/

/-- C8 counterexample: a missing cache file and a corrupt cache file
produce the *same* caller-visible outcome `(state unchanged, false)` —
the corruption is only logged, not surfaced; the caller cannot
distinguish the two. -/
theorem loadFromFile_corrupt_indistinguishable :
    loadFromFile ⟨[], none⟩ none = (⟨[], none⟩, false)
  ∧ loadFromFile ⟨[], none⟩ (some none) = (⟨[], none⟩, false)
  ∧ loadFromFile ⟨[], none⟩ (some none) = loadFromFile ⟨[], none⟩ none :=
  ⟨rfl, rfl, rfl⟩

lemma embedLoop_trace_of_ok (al : String → Except EmbedError (List StoredVector))
    (qd : List QARecord) :
    ∀ (idx : List ℕ) (store : List StoredVector) (cm : List (ℕ × Metadata)),
      (embedLoop al qd idx store cm).error = none →
      (embedLoop al qd idx store cm).trace = idx.map Event.embedCall := by
  intro idx
  induction idx with
  | nil => intro store cm _; rfl
  | cons i rest ih =>
    intro store cm h
    simp only [embedLoop] at h ⊢
    cases hal : al (textWithMetadata i ((qd[i]?).getD ⟨"", "", none, none, none⟩)) with
    | error e => simp [hal] at h
    | ok chunks =>
      simp only [hal, List.map_cons] at h ⊢
      rw [ih _ _ h]

lemma dbAfterBuild_noCache (env : Env) (s : SysState)
    (h : s.cacheFile = none ∨ s.cacheFile = some none) :
    dbAfterBuild env s = (⟨[], some env.embedDims⟩, false) := by
  unfold dbAfterBuild
  rcases h with h | h <;> rw [h] <;> simp [loadFromFile, ite_self]

lemma rebuildResult_ok_trace (env : Env) (now : String) (s0 : SysState)
    (qd : List QARecord) (db2 : VectorDB)
    (h : (rebuildResult env now s0 qd db2).error = none) :
    (rebuildResult env now s0 qd db2).trace =
      (List.range qd.length).map Event.embedCall ++
        [Event.wroteCache, Event.wroteIndicesHash, Event.wroteHash] := by
  simp only [rebuildResult] at h ⊢
  cases hlr : embedLoop env.addLoader qd (List.range qd.length)
      (if env.buildClears then [] else db2.vectors) s0.chunkMetadataMap with
  | mk st cm tr err =>
    rw [hlr] at h
    cases err with
    | some e => exact Option.noConfusion h
    | none =>
      have htr : tr = (List.range qd.length).map Event.embedCall := by
        have h2 := embedLoop_trace_of_ok env.addLoader qd
          (List.range qd.length) (if env.buildClears then [] else db2.vectors)
          s0.chunkMetadataMap (by rw [hlr])
        rw [hlr] at h2
        exact h2
      show tr ++ _ = _
      rw [htr]

lemma incrementalResult_error_state (env : Env) (now : String)
    (s0 : SysState) (qd : List QARecord) (current : List (ℕ × String))
    (changes : Changes) (db2 : VectorDB) (e : EmbedError)
    (h : (incrementalResult env now s0 qd current changes db2).error = some e) :
    (incrementalResult env now s0 qd current changes db2).state.cacheFile =
        s0.cacheFile
  ∧ (incrementalResult env now s0 qd current changes db2).state.indicesHashFile =
        s0.indicesHashFile
  ∧ (incrementalResult env now s0 qd current changes db2).state.hashFile =
        s0.hashFile
  ∧ (incrementalResult env now s0 qd current changes db2).state.isInitialized =
        s0.isInitialized := by
  simp only [incrementalResult] at h ⊢
  cases hlr : embedLoop env.addLoader qd
      (List.insertionSort (· ≤ ·) (changes.changed ++ changes.newIndices))
      (deleteLoop changes.changed (deleteLoop changes.deletedIndices db2.vectors))
      s0.chunkMetadataMap with
  | mk st cm tr err =>
    rw [hlr] at h
    cases err with
    | some e2 => exact ⟨rfl, rfl, rfl, rfl⟩
    | none => exact Option.noConfusion h

lemma rebuildResult_error_state (env : Env) (now : String) (s0 : SysState)
    (qd : List QARecord) (db2 : VectorDB) (e : EmbedError)
    (h : (rebuildResult env now s0 qd db2).error = some e) :
    (rebuildResult env now s0 qd db2).state.cacheFile = s0.cacheFile
  ∧ (rebuildResult env now s0 qd db2).state.indicesHashFile = s0.indicesHashFile
  ∧ (rebuildResult env now s0 qd db2).state.hashFile = s0.hashFile
  ∧ (rebuildResult env now s0 qd db2).state.isInitialized = s0.isInitialized := by
  simp only [rebuildResult] at h ⊢
  cases hlr : embedLoop env.addLoader qd (List.range qd.length)
      (if env.buildClears then [] else db2.vectors) s0.chunkMetadataMap with
  | mk st cm tr err =>
    rw [hlr] at h
    cases err with
    | some e2 => exact ⟨rfl, rfl, rfl, rfl⟩
    | none => exact Option.noConfusion h

/-- C8 amended: a missing cache file and a corrupt cache file both
return `false` with the database untouched (the corruption is logged
but not distinguishable by the caller), and with a corrupt cache file
a successful reconciliation pass is a full rebuild: it embeds every
corpus index in order and then writes cache, ledger and corpus digest. -/
theorem loadFromFile_absence_corruption (db : VectorDB) (env : Env)
    (now : String) (s : SysState)
    (hcorrupt : s.cacheFile = some none)
    (hok : (reconcile env now s).error = none) :
    loadFromFile db none = (db, false)
  ∧ loadFromFile db (some none) = (db, false)
  ∧ (reconcile env now s).trace =
      (List.range s.questions.length).map Event.embedCall ++
        [Event.wroteCache, Event.wroteIndicesHash, Event.wroteHash] := by
  refine ⟨rfl, rfl, ?_⟩
  unfold reconcile runInitializeRAG at hok ⊢
  simp only [Bool.false_eq_true, if_false] at hok ⊢
  rw [dbAfterBuild_noCache env { s with isInitialized := false }
    (Or.inr hcorrupt)] at hok ⊢
  simp only [Bool.false_eq_true, false_and, if_false] at hok ⊢
  exact rebuildResult_ok_trace env now _ s.questions _ hok

/-- A sample record used in concrete witnesses. -/
def sampleRecord : QARecord := ⟨"q", "a", none, none, none⟩

/-- An environment whose `addLoader` always succeeds with one chunk
holding the loaded text. -/
def okEnv : Env := ⟨fun t => .ok [⟨t, [], none⟩], false, 3⟩

/-- A state whose cache file is present but unparsable. -/
def corruptCacheState : SysState :=
  ⟨"raw", [sampleRecord], some none, none, none, none, [], false, [], none⟩

/-- Witness for the amended C8 at a concrete corrupt-cache state. -/
theorem loadFromFile_absence_corruption_witness :
    corruptCacheState.cacheFile = some none
  ∧ (reconcile okEnv "t" corruptCacheState).error = none
  ∧ (reconcile okEnv "t" corruptCacheState).trace =
      (List.range corruptCacheState.questions.length).map Event.embedCall ++
        [Event.wroteCache, Event.wroteIndicesHash, Event.wroteHash] :=
  ⟨rfl, rfl,
    (loadFromFile_absence_corruption ⟨[], none⟩ okEnv "t" corruptCacheState
      rfl rfl).2.2⟩

/- ### C9: dimension mismatch in the cache -/

/-- C9 counterexample: a cache whose declared `dimensions` is 2 but
whose single vector has length 3 is accepted by `loadFromFile`
(returns `true`), its mismatched vector is installed in the store, and
a subsequent search over the loaded store still returns that vector —
scored 0 by the length guard of `cosineSimilarity` against a
1-dimensional query — instead of the cache being dropped and rebuilt. -/
theorem dimensionMismatch_counterexample :
    (loadFromFile ⟨[], none⟩
        (some (some ⟨[⟨"x", [0, 0, 0], none⟩], some 2, "t"⟩))).2 = true
  ∧ (loadFromFile ⟨[], none⟩
        (some (some ⟨[⟨"x", [0, 0, 0], none⟩], some 2, "t"⟩))).1.vectors =
      [⟨"x", [0, 0, 0], none⟩]
  ∧ similaritySearch [1] [⟨"x", [0, 0, 0], none⟩] 1 = [⟨"x", none, 0⟩] := by
  refine ⟨rfl, rfl, ?_⟩
  simp only [similaritySearch, List.map, scoreChunk, List.insertionSort,
    List.orderedInsert, List.take]
  have : cosineSimilarity [1] [0, 0, 0] = 0 := by
    unfold cosineSimilarity
    rw [if_pos (by simp)]
  rw [this]

/-- C9 amended: no dimension validation happens on load — any parsable
cache replaces the store wholesale and is reported loaded — and a
stored vector whose length differs from the query's is not dropped but
scored 0 by the length guard of `cosineSimilarity`. -/
theorem dimensionMismatch_amended (db : VectorDB) (c : Cache) (q A : List ℝ)
    (h : q.length ≠ A.length) :
    loadFromFile db (some (some c)) = (⟨c.vectors, c.dimensions⟩, true)
  ∧ cosineSimilarity q A = 0 := by
  refine ⟨rfl, ?_⟩
  unfold cosineSimilarity
  rw [if_pos h]

/-- Witness for the amended C9. -/
theorem dimensionMismatch_amended_witness :
    ([1] : List ℝ).length ≠ ([] : List ℝ).length
  ∧ (loadFromFile ⟨[], none⟩ (some (some ⟨[], none, ""⟩)) =
      (⟨[], none⟩, true)
    ∧ cosineSimilarity [1] [] = 0) :=
  ⟨by decide, dimensionMismatch_amended ⟨[], none⟩ ⟨[], none, ""⟩ [1] []
    (by decide)⟩

/- ### C1 and C3: the `searchSimilarQuestions` result mapping -/

/-- The payload index the result mapping recovers for one raw search
result: the `[INDEX:n]` tag, else `metadata.index`, else the index of
the first metadata-map entry whose question or answer occurs in the
page content. -/
def resolvedIndex (cm : List (ℕ × Metadata)) (r : ScoredChunk) : Option ℕ :=
  match extractIndexTag r.pageContent with
  | some n => some n
  | none =>
    match r.metadata.bind (·.index) with
    | some k => some k
    | none => (resolveFromMap cm r.pageContent).map (·.index)

lemma toSimilarQuestion_index (cm : List (ℕ × Metadata)) (qd : List QARecord)
    (idx : ℕ) (r : ScoredChunk) :
    (toSimilarQuestion cm qd idx r).index = resolvedIndex cm r := by
  unfold toSimilarQuestion resolvedIndex
  cases htag : extractIndexTag r.pageContent with
  | some n => dsimp only; cases hq : qd[n]? <;> rfl
  | none =>
    dsimp only
    cases hmi : r.metadata.bind (·.index) with
    | some k => dsimp only; cases hq : qd[k]? <;> rfl
    | none => dsimp only; cases hm : resolveFromMap cm r.pageContent <;> rfl

lemma toSimilarQuestion_similarity (cm : List (ℕ × Metadata))
    (qd : List QARecord) (idx : ℕ) (r : ScoredChunk) :
    (toSimilarQuestion cm qd idx r).similarity = r.score := by
  unfold toSimilarQuestion
  cases htag : extractIndexTag r.pageContent with
  | some n => dsimp only; cases hq : qd[n]? <;> rfl
  | none =>
    dsimp only
    cases hmi : r.metadata.bind (·.index) with
    | some k => dsimp only; cases hq : qd[k]? <;> rfl
    | none => dsimp only; cases hm : resolveFromMap cm r.pageContent <;> rfl

lemma toSimilarQuestion_rank (cm : List (ℕ × Metadata))
    (qd : List QARecord) (idx : ℕ) (r : ScoredChunk) :
    (toSimilarQuestion cm qd idx r).rank = idx + 1 := by
  unfold toSimilarQuestion
  cases htag : extractIndexTag r.pageContent with
  | some n => dsimp only; cases hq : qd[n]? <;> rfl
  | none =>
    dsimp only
    cases hmi : r.metadata.bind (·.index) with
    | some k => dsimp only; cases hq : qd[k]? <;> rfl
    | none => dsimp only; cases hm : resolveFromMap cm r.pageContent <;> rfl

lemma convertResults_length (cm : List (ℕ × Metadata)) (qd : List QARecord) :
    ∀ (l : List ScoredChunk) (idx : ℕ),
      (convertResults cm qd idx l).length = l.length := by
  intro l
  induction l with
  | nil => intro idx; rfl
  | cons r t ih => intro idx; simp [convertResults, ih]

lemma convertResults_map_index (cm : List (ℕ × Metadata))
    (qd : List QARecord) :
    ∀ (l : List ScoredChunk) (idx : ℕ),
      (convertResults cm qd idx l).map (·.index) = l.map (resolvedIndex cm) := by
  intro l
  induction l with
  | nil => intro idx; rfl
  | cons r t ih =>
    intro idx
    simp [convertResults, ih, toSimilarQuestion_index]

lemma convertResults_map_similarity (cm : List (ℕ × Metadata))
    (qd : List QARecord) :
    ∀ (l : List ScoredChunk) (idx : ℕ),
      (convertResults cm qd idx l).map (·.similarity) = l.map (·.score) := by
  intro l
  induction l with
  | nil => intro idx; rfl
  | cons r t ih =>
    intro idx
    simp [convertResults, ih, toSimilarQuestion_similarity]

lemma convertResults_map_rank (cm : List (ℕ × Metadata))
    (qd : List QARecord) :
    ∀ (l : List ScoredChunk) (idx : ℕ),
      (convertResults cm qd idx l).map (·.rank) =
        List.range' (idx + 1) l.length := by
  intro l
  induction l with
  | nil => intro idx; rfl
  | cons r t ih =>
    intro idx
    simp [convertResults, List.range', toSimilarQuestion_rank]
    have := ih (idx + 1)
    simpa [Nat.add_comm, Nat.add_assoc, Nat.add_left_comm] using this

/-- The de-duplication property C1 asserts about a result list: at
most one entry per payload index. -/
def atMostOnePerIndex (l : List SimilarQuestion) : Prop :=
  ∀ n : ℕ, (l.filter fun h => h.index == some n).length ≤ 1

/-- C1 counterexample: two raw top hits carrying the same `[INDEX:0]`
tag (as multi-chunk records produce) both survive into the result of
`searchSimilarQuestions` — no de-duplication by payload index
happens. -/
theorem searchSimilarQuestions_no_dedup :
    (searchSimilarQuestions
        [⟨"[INDEX:0]z", none, 1⟩, ⟨"[INDEX:0]w", none, 0⟩] 10 []
        [sampleRecord]).map (·.index) = [some 0, some 0]
  ∧ ¬ atMostOnePerIndex (searchSimilarQuestions
        [⟨"[INDEX:0]z", none, 1⟩, ⟨"[INDEX:0]w", none, 0⟩] 10 []
        [sampleRecord]) := by
  refine ⟨rfl, fun h => ?_⟩
  have h0 := h 0
  rw [show ((searchSimilarQuestions
      [⟨"[INDEX:0]z", none, 1⟩, ⟨"[INDEX:0]w", none, 0⟩] 10 []
      [sampleRecord]).filter fun h => h.index == some 0).length = 2 from rfl]
    at h0
  omega

/-- C1 amended: `searchSimilarQuestions` performs no de-duplication by
payload index.  It truncates the raw hits to `topK` *first* and then
maps them one-to-one: the result has `min topK results.length` entries,
every raw hit among the first `topK` contributes exactly one entry with
its own score (so several chunks of the same record each yield their
own entry), ranks enumerate positions starting at 1. -/
theorem searchSimilarQuestions_spec (results : List ScoredChunk)
    (topK : ℕ) (cm : List (ℕ × Metadata)) (qd : List QARecord) (n : ℕ) :
    (searchSimilarQuestions results topK cm qd).length = min topK results.length
  ∧ ((searchSimilarQuestions results topK cm qd).filter
        fun h => h.index == some n).length =
      ((results.take topK).filter fun r => resolvedIndex cm r == some n).length
  ∧ (searchSimilarQuestions results topK cm qd).map (·.similarity) =
      (results.take topK).map (·.score)
  ∧ (searchSimilarQuestions results topK cm qd).map (·.rank) =
      List.range' 1 (min topK results.length) := by
  refine ⟨?_, ?_, ?_, ?_⟩
  · rw [searchSimilarQuestions, convertResults_length, List.length_take]
  · rw [searchSimilarQuestions]
    rw [← List.countP_eq_length_filter, ← List.countP_eq_length_filter]
    have hm := convertResults_map_index cm qd (results.take topK) 0
    calc (convertResults cm qd 0 (results.take topK)).countP
          (fun h => h.index == some n)
        = ((convertResults cm qd 0 (results.take topK)).map (·.index)).countP
            (fun i => i == some n) := by rw [List.countP_map]; rfl
      _ = ((results.take topK).map (resolvedIndex cm)).countP
            (fun i => i == some n) := by rw [hm]
      _ = (results.take topK).countP (fun r => resolvedIndex cm r == some n) := by
            rw [List.countP_map]; rfl
  · rw [searchSimilarQuestions, convertResults_map_similarity]
  · rw [searchSimilarQuestions, convertResults_map_rank, List.length_take]

/-- Witness for the amended C1 at the duplicate-tag input. -/
theorem searchSimilarQuestions_spec_witness :
    (searchSimilarQuestions
        [⟨"[INDEX:0]z", none, 1⟩, ⟨"[INDEX:0]w", none, 0⟩] 10 []
        [sampleRecord]).length =
      min 10 ([⟨"[INDEX:0]z", none, 1⟩, ⟨"[INDEX:0]w", none, 0⟩] :
        List ScoredChunk).length
  ∧ ((searchSimilarQuestions
        [⟨"[INDEX:0]z", none, 1⟩, ⟨"[INDEX:0]w", none, 0⟩] 10 []
        [sampleRecord]).filter fun h => h.index == some 0).length =
      ((([⟨"[INDEX:0]z", none, 1⟩, ⟨"[INDEX:0]w", none, 0⟩] :
          List ScoredChunk).take 10).filter
        fun r => resolvedIndex [] r == some 0).length :=
  ⟨(searchSimilarQuestions_spec _ 10 [] [sampleRecord] 0).1,
   (searchSimilarQuestions_spec _ 10 [] [sampleRecord] 0).2.1⟩

/-- C3 counterexample: a raw hit whose `[INDEX:5]` does not resolve in
the (empty) corpus is *not* skipped: `searchSimilarQuestions` returns a
hit with empty question/answer fields for it. -/
theorem unresolved_hit_counterexample :
    searchSimilarQuestions [⟨"[INDEX:5]", none, 1⟩] 10 [] [] =
      [⟨some 5, "", "", "", "", [], 1, 1⟩]
  ∧ (searchSimilarQuestions [⟨"[INDEX:5]", none, 1⟩] 10 [] []).length ≠ 0 := by
  refine ⟨rfl, ?_⟩
  rw [show (searchSimilarQuestions [⟨"[INDEX:5]", none, 1⟩] 10 [] []).length = 1
    from rfl]
  exact one_ne_zero

lemma convertResults_getElem? (cm : List (ℕ × Metadata)) (qd : List QARecord) :
    ∀ (l : List ScoredChunk) (idx i : ℕ),
      (convertResults cm qd idx l)[i]? =
        (l[i]?).map (toSimilarQuestion cm qd (idx + i)) := by
  intro l
  induction l with
  | nil => intro idx i; rfl
  | cons r t ih =>
    intro idx i
    cases i with
    | zero => simp [convertResults]
    | succ j =>
      simp only [convertResults, List.getElem?_cons_succ, ih (idx + 1) j]
      have harith : idx + 1 + j = idx + (j + 1) := by omega
      rw [harith]

/-- C3 amended: a raw top hit whose recovered payload index does not
resolve against the corpus is *not* skipped — the result at the same
position is a placeholder hit carrying that index, empty
question/answer/category/audience, no keywords, the raw score and the
positional rank. -/
theorem unresolved_hit_returned (results : List ScoredChunk) (topK : ℕ)
    (cm : List (ℕ × Metadata)) (qd : List QARecord) (i n : ℕ)
    (r : ScoredChunk)
    (hr : (results.take topK)[i]? = some r)
    (htag : extractIndexTag r.pageContent = some n)
    (hmiss : qd[n]? = none) :
    (searchSimilarQuestions results topK cm qd)[i]? =
      some ⟨some n, "", "", "", "", [], r.score, i + 1⟩ := by
  rw [searchSimilarQuestions, convertResults_getElem?, hr]
  dsimp only [Option.map]
  simp only [Nat.zero_add]
  unfold toSimilarQuestion
  rw [htag]
  dsimp only
  rw [hmiss]

/-- Witness for the amended C3. -/
theorem unresolved_hit_returned_witness :
    (([⟨"[INDEX:5]", none, 1⟩] : List ScoredChunk).take 10)[0]? =
      some ⟨"[INDEX:5]", none, 1⟩
  ∧ extractIndexTag "[INDEX:5]" = some 5
  ∧ (([] : List QARecord))[5]? = none
  ∧ (searchSimilarQuestions [⟨"[INDEX:5]", none, 1⟩] 10 [] [])[0]? =
      some ⟨some 5, "", "", "", "", [], (1 : ℝ), 0 + 1⟩ :=
  ⟨rfl, rfl, rfl,
   unresolved_hit_returned [⟨"[INDEX:5]", none, 1⟩] 10 [] [] 0 5
     ⟨"[INDEX:5]", none, 1⟩ rfl rfl rfl⟩

/- ### C4: `similaritySearch` -/

lemma filter_orderedInsert_pos (p : ScoredChunk → Bool) (a : ScoredChunk)
    (hpa : p a = true) (hskip : ∀ b, ¬ scoreGE a b → p b = false) :
    ∀ l : List ScoredChunk,
      (List.orderedInsert scoreGE a l).filter p = a :: l.filter p := by
  intro l
  induction l with
  | nil => simp [List.orderedInsert, hpa]
  | cons b t ih =>
    rw [List.orderedInsert]
    by_cases h : scoreGE a b
    · rw [if_pos h]
      simp [List.filter_cons, hpa]
    · rw [if_neg h]
      rw [List.filter_cons, List.filter_cons, hskip b h]
      simpa using ih

lemma filter_orderedInsert_neg (p : ScoredChunk → Bool) (a : ScoredChunk)
    (hpa : p a = false) :
    ∀ l : List ScoredChunk,
      (List.orderedInsert scoreGE a l).filter p = l.filter p := by
  intro l
  induction l with
  | nil => simp [List.orderedInsert, hpa]
  | cons b t ih =>
    rw [List.orderedInsert]
    by_cases h : scoreGE a b
    · rw [if_pos h]
      simp [List.filter_cons, hpa]
    · rw [if_neg h]
      rw [List.filter_cons, List.filter_cons, ih]

/-- Stability of the descending sort: the sub-sequence of entries with
any fixed score is preserved (ties keep insertion order). -/
lemma filter_insertionSort_score (c : ℝ) :
    ∀ l : List ScoredChunk,
      (List.insertionSort scoreGE l).filter (fun x => decide (x.score = c)) =
        l.filter (fun x => decide (x.score = c)) := by
  intro l
  induction l with
  | nil => rfl
  | cons a t ih =>
    rw [List.insertionSort]
    by_cases hc : a.score = c
    · rw [filter_orderedInsert_pos _ a (by simp [hc]) ?_ _]
      · rw [List.filter_cons]
        simp [hc, ih]
      · intro b hb
        simp only [scoreGE, not_le] at hb
        have : b.score ≠ c := by
          intro hbc
          rw [hbc, ← hc] at hb
          exact lt_irrefl _ hb
        simp [this]
    · rw [filter_orderedInsert_neg _ a (by simp [hc]) _]
      rw [List.filter_cons]
      simp [hc, ih]

lemma dotList_self_nonneg (l : List ℝ) : 0 ≤ dotList l l := by
  unfold dotList
  induction l with
  | nil => simp
  | cons x t ih =>
    rw [List.zipWith_cons_cons, List.sum_cons]
    exact add_nonneg (mul_self_nonneg x) ih

/-- C4: `similaritySearch` returns `min k N` results; they are sorted
by non-increasing score; the untruncated result is a permutation of
the chunks scored with `cosineSimilarity` against the query; ties keep
insertion order (the sub-sequence at any fixed score value is the
insertion-order sub-sequence); the score of a chunk whose vector
matches the query's dimension and whose norm — like the query's — is
nonzero is `(q·v) / (|q|·|v|)`; and a chunk is scored `0` whenever
either norm is zero. -/
theorem similaritySearch_spec (q : List ℝ) (store : List StoredVector)
    (k : ℕ) (v : StoredVector) (c : ℝ) :
    (similaritySearch q store k).length = min k store.length
  ∧ List.Sorted scoreGE (similaritySearch q store k)
  ∧ (similaritySearch q store store.length).Perm
      (store.map (scoreChunk q))
  ∧ (similaritySearch q store store.length).filter
        (fun x => decide (x.score = c)) =
      (store.map (scoreChunk q)).filter (fun x => decide (x.score = c))
  ∧ (v.vector.length = q.length → dotList q q ≠ 0 →
      dotList v.vector v.vector ≠ 0 →
      (scoreChunk q v).score =
        dotList q v.vector /
          (Real.sqrt (dotList q q) * Real.sqrt (dotList v.vector v.vector)))
  ∧ (Real.sqrt (dotList q q) = 0 ∨ Real.sqrt (dotList v.vector v.vector) = 0 →
      (scoreChunk q v).score = 0) := by
  have huntrunc : similaritySearch q store store.length =
      List.insertionSort scoreGE (store.map (scoreChunk q)) := by
    unfold similaritySearch
    apply List.take_of_length_le
    rw [List.length_insertionSort, List.length_map]
  refine ⟨?_, ?_, ?_, ?_, ?_, ?_⟩
  · unfold similaritySearch
    rw [List.length_take, List.length_insertionSort, List.length_map]
  · unfold similaritySearch
    exact (List.sorted_insertionSort scoreGE _).sublist (List.take_sublist _ _)
  · rw [huntrunc]
    exact (List.perm_insertionSort scoreGE _).trans (List.Perm.refl _)
  · rw [huntrunc]
    exact filter_insertionSort_score c _
  · intro hlen hq hv
    show cosineSimilarity q v.vector = _
    unfold cosineSimilarity
    rw [if_neg (by rw [hlen]; exact fun h => h rfl)]
    rw [if_neg (by push_neg; exact ⟨hq, hv⟩)]
  · intro h
    show cosineSimilarity q v.vector = 0
    unfold cosineSimilarity
    by_cases hlen : q.length ≠ v.vector.length
    · rw [if_pos hlen]
    · rw [if_neg hlen]
      have hz : dotList q q = 0 ∨ dotList v.vector v.vector = 0 := by
        rcases h with h | h
        · exact Or.inl ((Real.sqrt_eq_zero (dotList_self_nonneg q)).mp h)
        · exact Or.inr
            ((Real.sqrt_eq_zero (dotList_self_nonneg v.vector)).mp h)
      rw [if_pos hz]

/-- Witness for C4 at a one-chunk store with 1-dimensional vectors. -/
theorem similaritySearch_spec_witness :
    (similaritySearch [1] [⟨"p", [1], none⟩] 1).length =
      min 1 ([⟨"p", [1], none⟩] : List StoredVector).length
  ∧ List.Sorted scoreGE (similaritySearch [1] [⟨"p", [1], none⟩] 1)
  ∧ (([⟨"p", [1], none⟩] : List StoredVector).map
        (scoreChunk [1])).length = 1
  ∧ (([] : List ℝ).length = ([1] : List ℝ).length → dotList [1] [1] ≠ 0 →
      dotList [] [] ≠ 0 →
      (scoreChunk [1] ⟨"p", [], none⟩).score =
        dotList [1] [] / (Real.sqrt (dotList [1] [1]) * Real.sqrt (dotList [] []))) := by
  have h := similaritySearch_spec [1] [⟨"p", [1], none⟩] 1 ⟨"p", [], none⟩ 0
  exact ⟨h.1, h.2.1, by rfl, h.2.2.2.2.1⟩

/- ### C5: the record fingerprint -/

lemma char_toNat_inj {c d : Char} (h : c.toNat = d.toNat) : c = d := by
  apply Char.ext
  apply UInt32.ext
  simpa [Char.toNat, UInt32.toNat] using h

lemma char_valid_nat (c : Char) :
    c.toNat < 55296 ∨ (57343 < c.toNat ∧ c.toNat < 1114112) := by
  have h := c.valid
  rcases h with h | h
  · exact Or.inl h
  · exact Or.inr h

lemma lexLe_total : ∀ xs ys : List ℕ, lexLe xs ys = true ∨ lexLe ys xs = true := by
  intro xs
  induction xs with
  | nil => intro ys; left; rfl
  | cons a as ih =>
    intro ys
    cases ys with
    | nil => right; rfl
    | cons b bs =>
      by_cases hab : a < b
      · left; simp [lexLe, hab]
      · by_cases hba : b < a
        · right; simp [lexLe, hba]
        · rcases ih bs with h | h
          · left; simp [lexLe, hab, hba, h]
          · right; simp [lexLe, hab, hba, h]

lemma lexLe_trans : ∀ xs ys zs : List ℕ, lexLe xs ys = true →
    lexLe ys zs = true → lexLe xs zs = true := by
  intro xs
  induction xs with
  | nil => intro ys zs _ _; rfl
  | cons a as ih =>
    intro ys zs h1 h2
    cases ys with
    | nil => simp [lexLe] at h1
    | cons b bs =>
      cases zs with
      | nil => simp [lexLe] at h2
      | cons d ds =>
        simp only [lexLe] at h1 h2 ⊢
        by_cases hab : a < b <;> by_cases hba : b < a <;>
          by_cases hbd : b < d <;> by_cases hdb : d < b <;>
            simp only [hab, hba, hbd, hdb, if_true, if_false,
              if_pos, if_neg] at h1 h2 ⊢ <;>
          first
            | omega
            | (rw [if_pos (by omega : a < d)])
            | (rw [if_neg (by omega : ¬ a < d), if_neg (by omega : ¬ d < a)]
               exact ih bs ds (by simpa [hab, hba] using h1)
                 (by simpa [hbd, hdb] using h2))
            | simp_all

lemma lexLe_antisymm : ∀ xs ys : List ℕ, lexLe xs ys = true →
    lexLe ys xs = true → xs = ys := by
  intro xs
  induction xs with
  | nil =>
    intro ys h1 h2
    cases ys with
    | nil => rfl
    | cons b bs => simp [lexLe] at h2
  | cons a as ih =>
    intro ys h1 h2
    cases ys with
    | nil => simp [lexLe] at h1
    | cons b bs =>
      simp only [lexLe] at h1 h2
      by_cases hab : a < b
      · simp [hab, show ¬ b < a by omega] at h2
      · by_cases hba : b < a
        · simp [hba, show ¬ a < b by omega] at h1
        · have hab' : a = b := by omega
          rw [if_neg hab, if_neg hba] at h1
          rw [if_neg hba, if_neg hab] at h2
          rw [hab', ih bs h1 h2]

lemma charUtf16_ne_nil (c : Char) : charUtf16 c ≠ [] := by
  unfold charUtf16
  by_cases h : c.toNat < 65536 <;> simp [h]

lemma utf16_chars_inj : ∀ s t : List Char,
    (s.map charUtf16).flatten = (t.map charUtf16).flatten → s = t := by
  intro s
  induction s with
  | nil =>
    intro t h
    cases t with
    | nil => rfl
    | cons d ds =>
      exfalso
      simp only [List.map_nil, List.flatten_nil, List.map_cons,
        List.flatten_cons] at h
      have := charUtf16_ne_nil d
      cases hcd : charUtf16 d with
      | nil => exact this hcd
      | cons u us => rw [hcd] at h; simp at h
  | cons c cs ih =>
    intro t h
    cases t with
    | nil =>
      exfalso
      simp only [List.map_nil, List.flatten_nil, List.map_cons,
        List.flatten_cons] at h
      have := charUtf16_ne_nil c
      cases hcd : charUtf16 c with
      | nil => exact this hcd
      | cons u us => rw [hcd] at h; simp at h
    | cons d ds =>
      simp only [List.map_cons, List.flatten_cons] at h
      have hv1 := char_valid_nat c
      have hv2 := char_valid_nat d
      have hmain : c = d ∧
          (cs.map charUtf16).flatten = (ds.map charUtf16).flatten := by
        unfold charUtf16 at h
        by_cases h1 : c.toNat < 65536 <;> by_cases h2 : d.toNat < 65536 <;>
          simp only [h1, h2, if_true, if_false, if_pos, if_neg,
            List.cons_append, List.nil_append, List.cons.injEq] at h
        · exact ⟨char_toNat_inj h.1, h.2⟩
        · exact absurd h.1 (by omega)
        · exact absurd h.1 (by omega)
        · refine ⟨char_toNat_inj ?_, h.2.2⟩
          have := h.1
          have := h.2.1
          omega
      rw [hmain.1, ih ds hmain.2]

lemma utf16Units_inj {s t : String} (h : utf16Units s = utf16Units t) :
    s = t := by
  cases s with
  | mk sd =>
    cases t with
    | mk td =>
      unfold utf16Units at h
      simp only at h
      rw [utf16_chars_inj sd td h]

instance : IsTotal String jsLe :=
  ⟨fun a b => lexLe_total (utf16Units a) (utf16Units b)⟩

instance : IsTrans String jsLe := ⟨fun _ _ _ h1 h2 => lexLe_trans _ _ _ h1 h2⟩

instance : IsAntisymm String jsLe :=
  ⟨fun _ _ h1 h2 => utf16Units_inj (lexLe_antisymm _ _ h1 h2)⟩

/-- Sorting is permutation-invariant: JavaScript's default sort of any
two permutations of the same keyword list agree. -/
lemma jsSortStrings_perm_eq {ks ks' : List String} (h : ks.Perm ks') :
    jsSortStrings ks = jsSortStrings ks' :=
  List.eq_of_perm_of_sorted
    ((List.perm_insertionSort _ _).trans
      (h.trans (List.perm_insertionSort _ _).symm))
    (List.sorted_insertionSort _ _) (List.sorted_insertionSort _ _)

/- #### A decoder for the canonical JSON text

To show that the canonical form separates the semantic fields, we build
an explicit decoder for the fixed object shape produced by
`canonicalContent` and prove the round trip.  Injectivity of the
canonical form in (question, answer, normalized category, normalized
audience, sorted-joined keywords) follows. -/

/-- Strip an expected literal prefix. -/
def stripPrefixChars : List Char → List Char → Option (List Char)
  | [], l => some l
  | _ :: _, [] => none
  | a :: as, b :: bs => if a = b then stripPrefixChars as bs else none

lemma stripPrefixChars_append (p l : List Char) :
    stripPrefixChars p (p ++ l) = some l := by
  induction p with
  | nil => rfl
  | cons a as ih => simp [stripPrefixChars, ih]

/-- Hex value of one lowercase hex digit. -/
def hexVal (c : Char) : Option ℕ :=
  if 48 ≤ c.toNat ∧ c.toNat ≤ 57 then some (c.toNat - 48)
  else if 97 ≤ c.toNat ∧ c.toNat ≤ 102 then some (c.toNat - 87)
  else none

lemma hexVal_hexChar : ∀ m, m < 16 → hexVal (hexChar m) = some m := by
  decide

/-- Decode a JSON string body up to (and including) its closing
unescaped quote; return the decoded characters and the remainder. -/
def parseStrBody : List Char → Option (List Char × List Char)
  | [] => none
  | c :: rest =>
    if c = '"' then some ([], rest)
    else if c = '\\' then
      match rest with
      | [] => none
      | e :: rest2 =>
        if e = '"' then (parseStrBody rest2).map fun p => ('"' :: p.1, p.2)
        else if e = '\\' then
          (parseStrBody rest2).map fun p => ('\\' :: p.1, p.2)
        else if e = 'b' then
          (parseStrBody rest2).map fun p => (Char.ofNat 8 :: p.1, p.2)
        else if e = 't' then
          (parseStrBody rest2).map fun p => (Char.ofNat 9 :: p.1, p.2)
        else if e = 'n' then
          (parseStrBody rest2).map fun p => (Char.ofNat 10 :: p.1, p.2)
        else if e = 'f' then
          (parseStrBody rest2).map fun p => (Char.ofNat 12 :: p.1, p.2)
        else if e = 'r' then
          (parseStrBody rest2).map fun p => (Char.ofNat 13 :: p.1, p.2)
        else if e = 'u' then
          match rest2 with
          | x1 :: x2 :: x3 :: x4 :: rest3 =>
            match hexVal x1, hexVal x2, hexVal x3, hexVal x4 with
            | some v1, some v2, some v3, some v4 =>
              (parseStrBody rest3).map fun p =>
                (Char.ofNat (4096 * v1 + 256 * v2 + 16 * v3 + v4) :: p.1, p.2)
            | _, _, _, _ => none
          | _ => none
        else none
    else (parseStrBody rest).map fun p => (c :: p.1, p.2)
termination_by l => l.length
decreasing_by all_goals simp <;> omega

/-- A quoted JSON string: an opening quote, then a body. -/
def parseQuoted (l : List Char) : Option (List Char × List Char) :=
  match l with
  | '"' :: rest => parseStrBody rest
  | _ => none

lemma parseStrBody_jsonEscape :
    ∀ (s : List Char) (rest : List Char),
      parseStrBody ((s.map jsonEscapeChar).flatten ++ '"' :: rest) =
        some (s, rest) := by
  intro s
  induction s with
  | nil =>
    intro rest
    show parseStrBody ('"' :: rest) = some ([], rest)
    unfold parseStrBody
    simp
  | cons c cs ih =>
    intro rest
    simp only [List.map_cons, List.flatten_cons, List.append_assoc]
    by_cases h1 : c = '"'
    · rw [show jsonEscapeChar c = ['\\', '"'] by subst h1; rfl]
      show parseStrBody ('\\' :: '"' :: _) = _
      unfold parseStrBody
      simp [ih, h1]
    · by_cases h2 : c = '\\'
      · rw [show jsonEscapeChar c = ['\\', '\\'] by
          unfold jsonEscapeChar; rw [if_neg h1, if_pos h2]]
        show parseStrBody ('\\' :: '\\' :: _) = _
        unfold parseStrBody
        simp [ih, h2]
      · by_cases h3 : c = Char.ofNat 8
        · rw [show jsonEscapeChar c = ['\\', 'b'] by
            unfold jsonEscapeChar; rw [if_neg h1, if_neg h2, if_pos h3]]
          show parseStrBody ('\\' :: 'b' :: _) = _
          unfold parseStrBody
          simp [ih, h3]
        · by_cases h4 : c = Char.ofNat 9
          · rw [show jsonEscapeChar c = ['\\', 't'] by
              unfold jsonEscapeChar
              rw [if_neg h1, if_neg h2, if_neg h3, if_pos h4]]
            show parseStrBody ('\\' :: 't' :: _) = _
            unfold parseStrBody
            simp [ih, h4]
          · by_cases h5 : c = Char.ofNat 10
            · rw [show jsonEscapeChar c = ['\\', 'n'] by
                unfold jsonEscapeChar
                rw [if_neg h1, if_neg h2, if_neg h3, if_neg h4, if_pos h5]]
              show parseStrBody ('\\' :: 'n' :: _) = _
              unfold parseStrBody
              simp [ih, h5]
            · by_cases h6 : c = Char.ofNat 12
              · rw [show jsonEscapeChar c = ['\\', 'f'] by
                  unfold jsonEscapeChar
                  rw [if_neg h1, if_neg h2, if_neg h3, if_neg h4, if_neg h5,
                    if_pos h6]]
                show parseStrBody ('\\' :: 'f' :: _) = _
                unfold parseStrBody
                simp [ih, h6]
              · by_cases h7 : c = Char.ofNat 13
                · rw [show jsonEscapeChar c = ['\\', 'r'] by
                    unfold jsonEscapeChar
                    rw [if_neg h1, if_neg h2, if_neg h3, if_neg h4, if_neg h5,
                      if_neg h6, if_pos h7]]
                  show parseStrBody ('\\' :: 'r' :: _) = _
                  unfold parseStrBody
                  simp [ih, h7]
                · by_cases h8 : c.toNat < 32
                  · rw [show jsonEscapeChar c =
                        ['\\', 'u', '0', '0', hexChar (c.toNat / 16),
                          hexChar c.toNat] by
                      unfold jsonEscapeChar
                      rw [if_neg h1, if_neg h2, if_neg h3, if_neg h4, if_neg h5,
                        if_neg h6, if_neg h7, if_pos h8]]
                    show parseStrBody ('\\' :: 'u' :: '0' :: '0' ::
                      hexChar (c.toNat / 16) :: hexChar c.toNat :: _) = _
                    have e1 : hexVal (hexChar (c.toNat / 16)) =
                        some (c.toNat / 16) := by
                      have hh : hexChar (c.toNat / 16) =
                          hexChar (c.toNat / 16 % 16) := by
                        unfold hexChar
                        rw [show c.toNat / 16 % 16 % 16 = c.toNat / 16 % 16 by
                          omega]
                      rw [hh, hexVal_hexChar _ (by omega),
                        show c.toNat / 16 % 16 = c.toNat / 16 by omega]
                    have e2 : hexVal (hexChar c.toNat) =
                        some (c.toNat % 16) := by
                      have hh : hexChar c.toNat = hexChar (c.toNat % 16) := by
                        unfold hexChar
                        rw [show c.toNat % 16 % 16 = c.toNat % 16 by omega]
                      rw [hh, hexVal_hexChar _ (by omega)]
                    unfold parseStrBody
                    simp [e1, e2, show hexVal '0' = some 0 from rfl, ih]
                    rw [show 16 * (c.toNat / 16) + c.toNat % 16 = c.toNat by
                      omega, Char.ofNat_toNat]
                  · rw [show jsonEscapeChar c = [c] by
                      unfold jsonEscapeChar
                      rw [if_neg h1, if_neg h2, if_neg h3, if_neg h4, if_neg h5,
                        if_neg h6, if_neg h7, if_neg h8]]
                    show parseStrBody (c :: _) = _
                    unfold parseStrBody
                    simp [ih, h1, h2]

/-- Decoder for the exact object shape of `canonicalContent`. -/
def parseCanonical (l : List Char) :
    Option (List Char × List Char × List Char × List Char × List Char) :=
  match stripPrefixChars "\x7b\"question\":".data l with
  | none => none
  | some l1 =>
  match parseQuoted l1 with
  | none => none
  | some (q, l2) =>
  match stripPrefixChars ",\"answer\":".data l2 with
  | none => none
  | some l3 =>
  match parseQuoted l3 with
  | none => none
  | some (a, l4) =>
  match stripPrefixChars ",\"category\":".data l4 with
  | none => none
  | some l5 =>
  match parseQuoted l5 with
  | none => none
  | some (cat, l6) =>
  match stripPrefixChars ",\"audience\":".data l6 with
  | none => none
  | some l7 =>
  match parseQuoted l7 with
  | none => none
  | some (aud, l8) =>
  match stripPrefixChars ",\"keywords\":".data l8 with
  | none => none
  | some l9 =>
  match parseQuoted l9 with
  | none => none
  | some (kw, l10) =>
  if l10 = ['}'] then some (q, a, cat, aud, kw) else none

lemma parseQuoted_jsonStr (s : String) (rest : List Char) :
    parseQuoted ((jsonStr s).data ++ rest) = some (s.data, rest) := by
  have hshape : (jsonStr s).data ++ rest =
      '"' :: ((s.data.map jsonEscapeChar).flatten ++ '"' :: rest) := by
    unfold jsonStr jsonEscape
    simp [String.data_append, List.append_assoc]
  rw [hshape]
  unfold parseQuoted
  exact parseStrBody_jsonEscape s.data rest

lemma parseCanonical_canonicalContent (r : QARecord) :
    parseCanonical (canonicalContent r).data =
      some (r.question.data, r.answer.data, (r.category.getD "").data,
        (r.audience.getD "").data, (sortedKeywordsJoined r).data) := by
  have hshape : (canonicalContent r).data =
      "\x7b\"question\":".data ++ ((jsonStr r.question).data ++
        (",\"answer\":".data ++ ((jsonStr r.answer).data ++
          (",\"category\":".data ++ ((jsonStr (r.category.getD "")).data ++
            (",\"audience\":".data ++ ((jsonStr (r.audience.getD "")).data ++
              (",\"keywords\":".data ++
                ((jsonStr (sortedKeywordsJoined r)).data ++
                  "\x7d".data))))))))) := by
    unfold canonicalContent
    simp [String.data_append, List.append_assoc]
  rw [hshape]
  simp only [parseCanonical, stripPrefixChars_append, parseQuoted_jsonStr]
  simp

lemma string_data_inj {s t : String} (h : s.data = t.data) : s = t := by
  cases s
  cases t
  exact congrArg String.mk h

/-- The canonical form separates the semantic fields: equal canonical
texts mean equal question, answer, normalized category and audience,
and equal sorted comma-joins of the keywords. -/
lemma canonicalContent_inj {r r' : QARecord}
    (h : canonicalContent r = canonicalContent r') :
    r.question = r'.question ∧ r.answer = r'.answer ∧
    r.category.getD "" = r'.category.getD "" ∧
    r.audience.getD "" = r'.audience.getD "" ∧
    sortedKeywordsJoined r = sortedKeywordsJoined r' := by
  have h1 := parseCanonical_canonicalContent r
  have h2 := parseCanonical_canonicalContent r'
  rw [h, h2] at h1
  simp only [Option.some.injEq, Prod.mk.injEq] at h1
  obtain ⟨e1, e2, e3, e4, e5⟩ := h1
  exact ⟨(string_data_inj e1).symm, (string_data_inj e2).symm,
    (string_data_inj e3).symm, (string_data_inj e4).symm,
    (string_data_inj e5).symm⟩

lemma hexChar_norm (n : ℕ) : hexChar n = hexChar (n % 16) := by
  unfold hexChar
  rw [show n % 16 % 16 = n % 16 by omega]

lemma hexChar_mem_digits : ∀ m, m < 16 →
    hexChar m ∈ "0123456789abcdef".data := by
  decide

lemma md5hex_length (s : String) : (md5hex s).length = 32 := by
  unfold md5hex md5Bytes
  cases h : (md5Chunks (md5Pad (utf8Bytes s))).foldl md5Block
      (0x67452301, 0xefcdab89, 0x98badcfe, 0x10325476) with
  | mk a rest =>
    obtain ⟨b, c, d⟩ := rest
    rfl

lemma md5hex_chars (s : String) :
    ∀ ch ∈ (md5hex s).data, ch ∈ "0123456789abcdef".data := by
  intro ch hch
  unfold md5hex at hch
  simp only at hch
  rw [List.mem_flatten] at hch
  obtain ⟨l, hl, hchl⟩ := hch
  rw [List.mem_map] at hl
  obtain ⟨b, _, rfl⟩ := hl
  unfold byteHexChars at hchl
  simp only [List.mem_cons, List.not_mem_nil, or_false] at hchl
  rcases hchl with h | h
  · rw [h, hexChar_norm]
    exact hexChar_mem_digits _ (by omega)
  · rw [h, hexChar_norm]
    exact hexChar_mem_digits _ (by omega)

/- #### The C5 theorems -/

/-- C5 counterexample: the keyword lists `["a,b"]` and `["a","b"]` are
different keyword sets, yet their sorted comma-joins coincide, so the
two records have the *same* canonical form and the same digest — an
edit of the keyword set that does not change the fingerprint. -/
theorem calculateQuestionHash_join_collision :
    canonicalContent ⟨"q", "a", none, none, some ["a,b"]⟩ =
      canonicalContent ⟨"q", "a", none, none, some ["a", "b"]⟩
  ∧ calculateQuestionHash ⟨"q", "a", none, none, some ["a,b"]⟩ =
      calculateQuestionHash ⟨"q", "a", none, none, some ["a", "b"]⟩
  ∧ (⟨"q", "a", none, none, some ["a,b"]⟩ : QARecord).keywords ≠
      (⟨"q", "a", none, none, some ["a", "b"]⟩ : QARecord).keywords := by
  have hc : canonicalContent ⟨"q", "a", none, none, some ["a,b"]⟩ =
      canonicalContent ⟨"q", "a", none, none, some ["a", "b"]⟩ := by decide
  refine ⟨hc, ?_, by decide⟩
  unfold calculateQuestionHash
  rw [hc]

/-- C5 amended: the fingerprint is invariant under permutation of the
keyword list, the digest is 32 lowercase-hex characters, and the
canonical form is sensitive to any edit of the question, the answer,
the normalized (`|| ''`) category or audience, or the *sorted
comma-join* of the keywords — but keyword-set edits that preserve that
join (such as `["a,b"]` vs `["a","b"]`) produce the same canonical
form. -/
theorem calculateQuestionHash_spec (r r' : QARecord) (ks ks' : List String)
    (hks : r.keywords = some ks) (hperm : ks.Perm ks') :
    calculateQuestionHash { r with keywords := some ks' } =
      calculateQuestionHash r
  ∧ (canonicalContent r = canonicalContent r' →
      r.question = r'.question ∧ r.answer = r'.answer ∧
      r.category.getD "" = r'.category.getD "" ∧
      r.audience.getD "" = r'.audience.getD "" ∧
      sortedKeywordsJoined r = sortedKeywordsJoined r')
  ∧ (calculateQuestionHash r).length = 32
  ∧ ∀ ch ∈ (calculateQuestionHash r).data, ch ∈ "0123456789abcdef".data := by
  refine ⟨?_, fun h => canonicalContent_inj h, md5hex_length _, md5hex_chars _⟩
  have hjoin : sortedKeywordsJoined { r with keywords := some ks' } =
      sortedKeywordsJoined r := by
    unfold sortedKeywordsJoined
    rw [hks]
    simp only [Option.getD_some]
    rw [jsSortStrings_perm_eq hperm.symm]
  unfold calculateQuestionHash canonicalContent
  rw [hjoin]

/-- Witness for the amended C5. -/
theorem calculateQuestionHash_spec_witness :
    (⟨"q", "a", none, none, some ["b", "a"]⟩ : QARecord).keywords =
      some ["b", "a"]
  ∧ (["b", "a"] : List String).Perm ["a", "b"]
  ∧ calculateQuestionHash
      { (⟨"q", "a", none, none, some ["b", "a"]⟩ : QARecord) with
        keywords := some ["a", "b"] } =
      calculateQuestionHash ⟨"q", "a", none, none, some ["b", "a"]⟩
  ∧ (calculateQuestionHash ⟨"q", "a", none, none, some ["b", "a"]⟩).length =
      32 := by
  have h := calculateQuestionHash_spec ⟨"q", "a", none, none, some ["b", "a"]⟩
    ⟨"q", "a", none, none, some ["b", "a"]⟩ ["b", "a"] ["a", "b"] rfl
    (by decide)
  exact ⟨rfl, by decide, h.1, h.2.2.1⟩

/- ### C2: embedding failure during a pass -/

/-- C2 amended: when any record's embedding fails, the whole pass
aborts with that error: the cache file, the per-index ledger and the
corpus digest are all left exactly as they were — no entry is written
even for records that embedded successfully earlier in the pass — and
the system stays uninitialized, so the *next* run retries everything. -/
theorem embed_failure_aborts (env : Env) (now : String) (s : SysState)
    (e : EmbedError) (h : (reconcile env now s).error = some e) :
    (reconcile env now s).state.cacheFile = s.cacheFile
  ∧ (reconcile env now s).state.indicesHashFile = s.indicesHashFile
  ∧ (reconcile env now s).state.hashFile = s.hashFile
  ∧ (reconcile env now s).state.isInitialized = false := by
  unfold reconcile runInitializeRAG at h ⊢
  simp only [Bool.false_eq_true, if_false] at h ⊢
  split at h
  case isTrue hc1 =>
    rw [if_pos hc1]
    split at h
    case isTrue hc2 =>
      rw [if_pos hc2]
      exact absurd h (by simp [noChangeResult])
    case isFalse hc2 =>
      rw [if_neg hc2]
      exact incrementalResult_error_state _ _ _ _ _ _ _ _ h
  case isFalse hc1 =>
    rw [if_neg hc1]
    exact rebuildResult_error_state _ _ _ _ _ _ h

/-- A second sample record. -/
def sampleRecord2 : QARecord := ⟨"q2", "a2", some "c", none, none⟩

/-- An environment whose embedder fails on record 0's tagged text and
succeeds on every other text. -/
def failOnZeroEnv : Env :=
  ⟨fun t => if stringIncludes t "[INDEX:0]" then .error .transport
    else .ok [⟨t, [], none⟩], false, 3⟩

/-- A fresh two-record corpus: no cache, no ledger. -/
def freshTwoRecordState : SysState :=
  ⟨"raw", [sampleRecord, sampleRecord2], none, none, none, none, [],
   false, [], none⟩

/-- C2 counterexample: embedding record 0 fails while record 1 would
succeed; the pass stops after the failed call (record 1 is never
attempted, so reconciliation does *not* continue), and the ledger is
not written at all — not even an entry for record 1. -/
theorem embed_failure_counterexample :
    (reconcile failOnZeroEnv "t" freshTwoRecordState).error =
      some EmbedError.transport
  ∧ (reconcile failOnZeroEnv "t" freshTwoRecordState).trace =
      [Event.embedCall 0]
  ∧ (reconcile failOnZeroEnv "t" freshTwoRecordState).state.indicesHashFile =
      none
  ∧ (reconcile failOnZeroEnv "t" freshTwoRecordState).state.cacheFile =
      none :=
  ⟨rfl, rfl, rfl, rfl⟩

/-- Witness for the amended C2 at the concrete failing input. -/
theorem embed_failure_aborts_witness :
    (reconcile failOnZeroEnv "t" freshTwoRecordState).error =
      some EmbedError.transport
  ∧ ((reconcile failOnZeroEnv "t" freshTwoRecordState).state.cacheFile =
        freshTwoRecordState.cacheFile
    ∧ (reconcile failOnZeroEnv "t" freshTwoRecordState).state.indicesHashFile =
        freshTwoRecordState.indicesHashFile
    ∧ (reconcile failOnZeroEnv "t" freshTwoRecordState).state.hashFile =
        freshTwoRecordState.hashFile
    ∧ (reconcile failOnZeroEnv "t" freshTwoRecordState).state.isInitialized =
        false) :=
  ⟨rfl, embed_failure_aborts failOnZeroEnv "t" freshTwoRecordState
    EmbedError.transport rfl⟩

/- ### C7: write ordering within a pass -/

/-- Test for embedder-call events. -/
def isEmbedCall : Event → Bool
  | .embedCall _ => true
  | _ => false

lemma embedLoop_trace_all_embeds
    (al : String → Except EmbedError (List StoredVector))
    (qd : List QARecord) :
    ∀ (idx : List ℕ) (store : List StoredVector) (cm : List (ℕ × Metadata)),
      ∀ e ∈ (embedLoop al qd idx store cm).trace, isEmbedCall e = true := by
  intro idx
  induction idx with
  | nil => intro store cm e he; simp [embedLoop] at he
  | cons i rest ih =>
    intro store cm e he
    simp only [embedLoop] at he
    cases hal : al (textWithMetadata i
        ((qd[i]?).getD ⟨"", "", none, none, none⟩)) with
    | error e2 =>
      rw [hal] at he
      simp only [List.mem_singleton] at he
      rw [he]
      rfl
    | ok chunks =>
      rw [hal] at he
      simp only [List.mem_cons] at he
      rcases he with he | he
      · rw [he]; rfl
      · exact ih _ _ e he

lemma incrementalResult_trace_shape (env : Env) (now : String)
    (s0 : SysState) (qd : List QARecord) (current : List (ℕ × String))
    (changes : Changes) (db2 : VectorDB) :
    (∀ e ∈ (incrementalResult env now s0 qd current changes db2).trace,
        isEmbedCall e = true)
  ∨ ∃ embeds, (∀ e ∈ embeds, isEmbedCall e = true) ∧
      (incrementalResult env now s0 qd current changes db2).trace =
        embeds ++ [Event.wroteCache, Event.wroteIndicesHash, Event.wroteHash] := by
  simp only [incrementalResult]
  cases hlr : embedLoop env.addLoader qd
      (List.insertionSort (· ≤ ·) (changes.changed ++ changes.newIndices))
      (deleteLoop changes.changed (deleteLoop changes.deletedIndices db2.vectors))
      s0.chunkMetadataMap with
  | mk st cm tr err =>
    have hall : ∀ e ∈ tr, isEmbedCall e = true := fun e he =>
      embedLoop_trace_all_embeds env.addLoader qd _ _ _ e
        (by rw [hlr]; exact he)
    cases err with
    | some e2 => exact Or.inl hall
    | none => exact Or.inr ⟨tr, hall, rfl⟩

lemma rebuildResult_trace_shape (env : Env) (now : String) (s0 : SysState)
    (qd : List QARecord) (db2 : VectorDB) :
    (∀ e ∈ (rebuildResult env now s0 qd db2).trace, isEmbedCall e = true)
  ∨ ∃ embeds, (∀ e ∈ embeds, isEmbedCall e = true) ∧
      (rebuildResult env now s0 qd db2).trace =
        embeds ++ [Event.wroteCache, Event.wroteIndicesHash, Event.wroteHash] := by
  simp only [rebuildResult]
  cases hlr : embedLoop env.addLoader qd (List.range qd.length)
      (if env.buildClears then [] else db2.vectors) s0.chunkMetadataMap with
  | mk st cm tr err =>
    have hall : ∀ e ∈ tr, isEmbedCall e = true := fun e he =>
      embedLoop_trace_all_embeds env.addLoader qd _ _ _ e
        (by rw [hlr]; exact he)
    cases err with
    | some e2 => exact Or.inl hall
    | none => exact Or.inr ⟨tr, hall, rfl⟩

/-- Trace shapes of one pass: only embed calls (a failed pass), ledger
and digest writes only (the no-change branch), or embed calls followed
by cache write, ledger write, digest write (the two writing
branches). -/
lemma reconcile_trace_shape (env : Env) (now : String) (s : SysState) :
    (∀ e ∈ (reconcile env now s).trace, isEmbedCall e = true)
  ∨ (reconcile env now s).trace = [Event.wroteIndicesHash, Event.wroteHash]
  ∨ ∃ embeds, (∀ e ∈ embeds, isEmbedCall e = true) ∧
      (reconcile env now s).trace =
        embeds ++ [Event.wroteCache, Event.wroteIndicesHash, Event.wroteHash] := by
  unfold reconcile runInitializeRAG
  simp only [Bool.false_eq_true, if_false]
  split
  · split
    · right; left; rfl
    · rcases incrementalResult_trace_shape env now _ s.questions _ _ _ with
        h | h
      · left; exact h
      · right; right; exact h
  · rcases rebuildResult_trace_shape env now _ s.questions _ with h | h
    · left; exact h
    · right; right; exact h

lemma writes_getElem_cache (m : ℕ)
    (h : [Event.wroteCache, Event.wroteIndicesHash,
        Event.wroteHash][m]? = some Event.wroteCache) : m = 0 := by
  rcases m with _ | _ | _ | m
  · rfl
  · simp at h
  · simp at h
  · simp at h

lemma writes_getElem_ledger (m : ℕ)
    (h : [Event.wroteCache, Event.wroteIndicesHash,
          Event.wroteHash][m]? = some Event.wroteIndicesHash ∨
        [Event.wroteCache, Event.wroteIndicesHash,
          Event.wroteHash][m]? = some Event.wroteHash) :
    m = 1 ∨ m = 2 := by
  rcases m with _ | _ | _ | m
  · rcases h with h | h <;> simp at h
  · left; rfl
  · right; rfl
  · rcases h with h | h <;> simp at h

/-- C7 amended (ordering): whenever a pass writes the cache at trace
position `i` and the per-index ledger or the corpus digest at position
`j`, then `i < j` — a ledger write never precedes a cache write. -/
theorem cacheWrite_precedes_ledgerWrites (env : Env) (now : String)
    (s : SysState) (i j : ℕ)
    (hci : (reconcile env now s).trace[i]? = some Event.wroteCache)
    (hlj : (reconcile env now s).trace[j]? = some Event.wroteIndicesHash ∨
           (reconcile env now s).trace[j]? = some Event.wroteHash) :
    i < j := by
  rcases reconcile_trace_shape env now s with hsh | hsh | ⟨embeds, hemb, hsh⟩
  · exfalso
    have hmem : Event.wroteCache ∈ (reconcile env now s).trace :=
      List.getElem?_mem hci
    have := hsh _ hmem
    simp [isEmbedCall] at this
  · exfalso
    rw [hsh] at hci
    have hmem := List.getElem?_mem hci
    simp at hmem
  · rw [hsh] at hci hlj
    have hiL : i = embeds.length := by
      by_cases hlt : i < embeds.length
      · exfalso
        rw [List.getElem?_append_left hlt] at hci
        have := hemb _ (List.getElem?_mem hci)
        simp [isEmbedCall] at this
      · push_neg at hlt
        rw [List.getElem?_append_right hlt] at hci
        have := writes_getElem_cache _ hci
        omega
    have hjL : embeds.length < j := by
      by_cases hlt : j < embeds.length
      · exfalso
        rcases hlj with h | h <;>
        · rw [List.getElem?_append_left hlt] at h
          have := hemb _ (List.getElem?_mem h)
          simp [isEmbedCall] at this
      · push_neg at hlt
        have := writes_getElem_ledger (j - embeds.length) (by
          rcases hlj with h | h
          · left; rw [List.getElem?_append_right hlt] at h; exact h
          · right; rw [List.getElem?_append_right hlt] at h; exact h)
        omega
    omega

/-- A state whose ledger already matches its one-record corpus and
whose cache holds that record's chunk: the pass takes the no-change
branch. -/
def noChangeState : SysState :=
  ⟨"raw", [sampleRecord],
   some (some ⟨[⟨"[INDEX:0]x", [], none⟩], some 3, "t0"⟩),
   some [(0, calculateQuestionHash sampleRecord)],
   none, none, [], false, [], none⟩

set_option maxRecDepth 8000 in
/-- C7 counterexample: a no-change pass writes persistent state (the
ledger and the corpus digest) with *no* cache write at all in that
pass, so "the Cache Artifact is written strictly before the ledger" is
not true of every state-writing pass. -/
theorem ledger_written_without_cache_write :
    (reconcile okEnv "t1" noChangeState).trace =
      [Event.wroteIndicesHash, Event.wroteHash]
  ∧ Event.wroteIndicesHash ∈ (reconcile okEnv "t1" noChangeState).trace
  ∧ Event.wroteCache ∉ (reconcile okEnv "t1" noChangeState).trace := by
  have h : (reconcile okEnv "t1" noChangeState).trace =
      [Event.wroteIndicesHash, Event.wroteHash] := by decide
  refine ⟨h, by rw [h]; simp, by rw [h]; simp⟩

/-- A fresh one-record corpus: no cache, no ledger. -/
def freshOneRecordState : SysState :=
  ⟨"raw", [sampleRecord], none, none, none, none, [], false, [], none⟩

/-- Witness for the amended C7: in a fresh rebuild the cache write
lands at position 1, the ledger write at position 2. -/
theorem cacheWrite_precedes_ledgerWrites_witness :
    (reconcile okEnv "t" freshOneRecordState).trace[1]? =
      some Event.wroteCache
  ∧ ((reconcile okEnv "t" freshOneRecordState).trace[2]? =
        some Event.wroteIndicesHash ∨
      (reconcile okEnv "t" freshOneRecordState).trace[2]? =
        some Event.wroteHash)
  ∧ 1 < 2 :=
  ⟨rfl, Or.inl rfl,
   cacheWrite_precedes_ledgerWrites okEnv "t" freshOneRecordState 1 2 rfl
     (Or.inl rfl)⟩

/- ### C6: idempotence of a second pass -/

lemma indicesHashFrom_mem_ge (qd : List QARecord) :
    ∀ (k : ℕ) (p : ℕ × String), p ∈ indicesHashFrom k qd → k ≤ p.1 := by
  induction qd with
  | nil => intro k p hp; simp [indicesHashFrom] at hp
  | cons q qs ih =>
    intro k p hp
    simp only [indicesHashFrom, List.mem_cons] at hp
    rcases hp with rfl | hp
    · exact le_refl k
    · exact le_trans (by omega) (ih (k + 1) p hp)

lemma indicesHashFrom_mem_hash (qd : List QARecord) :
    ∀ (k : ℕ) (p : ℕ × String), p ∈ indicesHashFrom k qd →
      ∃ q, p.2 = calculateQuestionHash q := by
  induction qd with
  | nil => intro k p hp; simp [indicesHashFrom] at hp
  | cons q qs ih =>
    intro k p hp
    simp only [indicesHashFrom, List.mem_cons] at hp
    rcases hp with rfl | hp
    · exact ⟨q, rfl⟩
    · exact ih (k + 1) p hp

lemma lookupHash_indicesHashFrom_self (qd : List QARecord) :
    ∀ (k : ℕ) (p : ℕ × String), p ∈ indicesHashFrom k qd →
      lookupHash (indicesHashFrom k qd) p.1 = some p.2 := by
  induction qd with
  | nil => intro k p hp; simp [indicesHashFrom] at hp
  | cons q qs ih =>
    intro k p hp
    simp only [indicesHashFrom, List.mem_cons] at hp
    rcases hp with rfl | hp
    · simp [lookupHash, List.find?]
    · have hge := indicesHashFrom_mem_ge qs (k + 1) p hp
      have hkey : ((k, calculateQuestionHash q).1 == p.1) = false := by
        simp only [beq_eq_false_iff_ne, ne_eq]
        omega
      unfold lookupHash
      simp only [indicesHashFrom, List.find?_cons, hkey]
      have := ih (k + 1) p hp
      unfold lookupHash at this
      exact this

lemma md5hex_ne_empty (s : String) : md5hex s ≠ "" := by
  intro h
  have hl := md5hex_length s
  rw [h] at hl
  simp at hl

lemma classifyCurrent_of_lookup (L : List (ℕ × String)) :
    ∀ cur : List (ℕ × String),
      (∀ p ∈ cur, lookupHash L p.1 = some p.2 ∧ p.2 ≠ "") →
      classifyCurrent L cur = ([], []) := by
  intro cur
  induction cur with
  | nil => intro _; rfl
  | cons p rest ih =>
    intro hall
    obtain ⟨i, h⟩ := p
    obtain ⟨hl, hne⟩ := hall (i, h) (by simp)
    simp only [classifyCurrent]
    rw [ih fun q hq => hall q (List.mem_cons_of_mem _ hq)]
    rw [hl]
    simp [jsTruthy, hne]

lemma findDeleted_of_truthy (cur : List (ℕ × String)) :
    ∀ st : List (ℕ × String),
      (∀ p ∈ st, jsTruthy (lookupHash cur p.1) = true) →
      findDeleted cur st = [] := by
  intro st
  induction st with
  | nil => intro _; rfl
  | cons p rest ih =>
    intro hall
    obtain ⟨i, h⟩ := p
    have ht := hall (i, h) (by simp)
    simp only [findDeleted, ht]
    simp only [Bool.not_true, Bool.false_eq_true, if_false]
    exact ih fun q hq => hall q (List.mem_cons_of_mem _ hq)

/-- The classifier reports nothing when the stored hashes equal the
current ones. -/
lemma findChangedQuestions_self (qd : List QARecord) :
    findChangedQuestions (currentIndicesHashOf qd) (currentIndicesHashOf qd) =
      ⟨[], [], [], []⟩ := by
  have hprop : ∀ p ∈ currentIndicesHashOf qd,
      lookupHash (currentIndicesHashOf qd) p.1 = some p.2 ∧ p.2 ≠ "" := by
    intro p hp
    refine ⟨lookupHash_indicesHashFrom_self qd 0 p hp, ?_⟩
    obtain ⟨q, hq⟩ := indicesHashFrom_mem_hash qd 0 p hp
    rw [hq]
    exact md5hex_ne_empty _
  unfold findChangedQuestions
  rw [classifyCurrent_of_lookup _ _ hprop]
  rw [findDeleted_of_truthy _ _ fun p hp => by
    rw [(hprop p hp).1]
    simp [jsTruthy, (hprop p hp).2]]
  rfl

lemma dbAfterBuild_true_cache (env : Env) (s : SysState)
    (h : (dbAfterBuild env s).2 = true) :
    ∃ c, s.cacheFile = some (some c) := by
  cases hc : s.cacheFile with
  | none => unfold dbAfterBuild at h; rw [hc] at h; simp [loadFromFile] at h
  | some o =>
    cases o with
    | none => unfold dbAfterBuild at h; rw [hc] at h; simp [loadFromFile] at h
    | some c => exact ⟨c, rfl⟩

lemma dbAfterBuild_cache (env : Env) (s : SysState) (c : Cache)
    (h : s.cacheFile = some (some c)) :
    (dbAfterBuild env s).2 = true ∧
    (dbAfterBuild env s).1.vectors = c.vectors := by
  unfold dbAfterBuild
  rw [h]
  refine ⟨rfl, ?_⟩
  by_cases hb : env.buildClears = true <;>
    by_cases hnil : c.vectors = []
  · simp [loadFromFile, hb, hnil]
  · simp [loadFromFile, hb, List.length_pos.mpr hnil]
  · simp [loadFromFile, hb, hnil]
  · simp [loadFromFile, hb, List.length_eq_zero, hnil]

lemma incrementalResult_ok_state (env : Env) (now : String)
    (s0 : SysState) (qd : List QARecord) (current : List (ℕ × String))
    (changes : Changes) (db2 : VectorDB)
    (h : (incrementalResult env now s0 qd current changes db2).error = none) :
    (incrementalResult env now s0 qd current changes db2).state.questionsRaw =
        s0.questionsRaw
  ∧ (incrementalResult env now s0 qd current changes db2).state.questions =
        s0.questions
  ∧ (incrementalResult env now s0 qd current changes db2).state.indicesHashFile =
        some current
  ∧ (incrementalResult env now s0 qd current changes db2).state.hashFile =
        some (calculateQuestionsHash s0.questionsRaw)
  ∧ ∃ c : Cache,
      (incrementalResult env now s0 qd current changes db2).state.cacheFile =
          some (some c) ∧
      c.vectors =
        (incrementalResult env now s0 qd current changes db2).state.store := by
  simp only [incrementalResult] at h ⊢
  cases hlr : embedLoop env.addLoader qd
      (List.insertionSort (· ≤ ·) (changes.changed ++ changes.newIndices))
      (deleteLoop changes.changed (deleteLoop changes.deletedIndices db2.vectors))
      s0.chunkMetadataMap with
  | mk st cm tr err =>
    rw [hlr] at h
    cases err with
    | some e => exact Option.noConfusion h
    | none => exact ⟨rfl, rfl, rfl, rfl, ⟨st, db2.dimensions, now⟩, rfl, rfl⟩

lemma rebuildResult_ok_state (env : Env) (now : String) (s0 : SysState)
    (qd : List QARecord) (db2 : VectorDB)
    (h : (rebuildResult env now s0 qd db2).error = none) :
    (rebuildResult env now s0 qd db2).state.questionsRaw = s0.questionsRaw
  ∧ (rebuildResult env now s0 qd db2).state.questions = s0.questions
  ∧ (rebuildResult env now s0 qd db2).state.indicesHashFile =
      some (currentIndicesHashOf qd)
  ∧ (rebuildResult env now s0 qd db2).state.hashFile =
      some (calculateQuestionsHash s0.questionsRaw)
  ∧ ∃ c : Cache, (rebuildResult env now s0 qd db2).state.cacheFile =
        some (some c) ∧
      c.vectors = (rebuildResult env now s0 qd db2).state.store := by
  simp only [rebuildResult] at h ⊢
  cases hlr : embedLoop env.addLoader qd (List.range qd.length)
      (if env.buildClears then [] else db2.vectors) s0.chunkMetadataMap with
  | mk st cm tr err =>
    rw [hlr] at h
    cases err with
    | some e => exact Option.noConfusion h
    | none =>
      exact ⟨rfl, rfl, rfl, rfl, ⟨st, some env.embedDims, now⟩, rfl, rfl⟩

/-- After any successful pass: the corpus is untouched, the ledger
holds exactly the current per-index hashes, the digest file holds the
corpus digest, and the cache file is well-formed with exactly the
in-memory store's vectors. -/
lemma reconcile_ok_state (env : Env) (now : String) (s : SysState)
    (h : (reconcile env now s).error = none) :
    (reconcile env now s).state.questionsRaw = s.questionsRaw
  ∧ (reconcile env now s).state.questions = s.questions
  ∧ (reconcile env now s).state.indicesHashFile =
      some (currentIndicesHashOf s.questions)
  ∧ (reconcile env now s).state.hashFile =
      some (calculateQuestionsHash s.questionsRaw)
  ∧ ∃ c : Cache, (reconcile env now s).state.cacheFile = some (some c) ∧
      c.vectors = (reconcile env now s).state.store := by
  unfold reconcile runInitializeRAG at h ⊢
  simp only [Bool.false_eq_true, if_false] at h ⊢
  split at h
  case isTrue hc1 =>
    rw [if_pos hc1]
    split at h
    case isTrue hc2 =>
      rw [if_pos hc2]
      obtain ⟨c, hcfile⟩ :=
        dbAfterBuild_true_cache env { s with isInitialized := false } hc1.1
      have hdb := dbAfterBuild_cache env { s with isInitialized := false } c hcfile
      exact ⟨rfl, rfl, rfl, rfl, c, hcfile, hdb.2.symm⟩
    case isFalse hc2 =>
      rw [if_neg hc2]
      exact incrementalResult_ok_state _ _ _ _ _ _ _ h
  case isFalse hc1 =>
    rw [if_neg hc1]
    exact rebuildResult_ok_state _ _ _ _ _ h

/-- A pass over a state whose ledger matches the current corpus and
whose cache holds at least one vector takes the no-change branch. -/
lemma reconcile_noChange (env : Env) (now : String) (s1 : SysState)
    (c : Cache) (hcache : s1.cacheFile = some (some c))
    (hvne : c.vectors ≠ [])
    (hled : s1.indicesHashFile = some (currentIndicesHashOf s1.questions)) :
    reconcile env now s1 =
      noChangeResult
        { s1 with isInitialized := false, questionsData := some s1.questions }
        s1.questions (currentIndicesHashOf s1.questions)
        (dbAfterBuild env { s1 with isInitialized := false }).1 := by
  have hdb := dbAfterBuild_cache env { s1 with isInitialized := false } c hcache
  unfold reconcile runInitializeRAG
  simp only [Bool.false_eq_true, if_false]
  rw [if_pos ⟨hdb.1, by rw [hdb.2]; exact List.length_pos.mpr hvne⟩]
  rw [if_pos ?_]
  case _ =>
    rw [hled]
    simp only [Option.getD_some]
    rw [findChangedQuestions_self]
    exact ⟨rfl, rfl⟩

/-- C6 amended: provided the first successful pass leaves at least one
vector in the cache, a second run over the unchanged corpus is a
no-op: the classifier reports no added, changed or deleted indices,
the pass succeeds having called the embedder zero times (its trace is
just the ledger and digest rewrites), and ledger, digest, cache file
and store are all unchanged. -/
theorem reconcile_idempotent (env : Env) (now1 now2 : String) (s : SysState)
    (hok : (reconcile env now1 s).error = none)
    (hne : ∀ c : Cache,
      (reconcile env now1 s).state.cacheFile = some (some c) →
        c.vectors ≠ []) :
    findChangedQuestions
        (currentIndicesHashOf (reconcile env now1 s).state.questions)
        ((reconcile env now1 s).state.indicesHashFile.getD []) =
      ⟨[], [], [], []⟩
  ∧ (reconcile env now2 (reconcile env now1 s).state).error = none
  ∧ (reconcile env now2 (reconcile env now1 s).state).trace =
      [Event.wroteIndicesHash, Event.wroteHash]
  ∧ (reconcile env now2 (reconcile env now1 s).state).state.indicesHashFile =
      (reconcile env now1 s).state.indicesHashFile
  ∧ (reconcile env now2 (reconcile env now1 s).state).state.hashFile =
      (reconcile env now1 s).state.hashFile
  ∧ (reconcile env now2 (reconcile env now1 s).state).state.cacheFile =
      (reconcile env now1 s).state.cacheFile
  ∧ (reconcile env now2 (reconcile env now1 s).state).state.store =
      (reconcile env now1 s).state.store := by
  obtain ⟨hraw, hq, hled, hhash, c, hcache, hvec⟩ :=
    reconcile_ok_state env now1 s hok
  have hvne : c.vectors ≠ [] := hne c hcache
  generalize hs1 : (reconcile env now1 s).state = s1 at hraw hq hled hhash hcache hvec ⊢
  have hled1 : s1.indicesHashFile =
      some (currentIndicesHashOf s1.questions) := by rw [hq]; exact hled
  have hhash1 : s1.hashFile =
      some (calculateQuestionsHash s1.questionsRaw) := by rw [hraw]; exact hhash
  have hrun := reconcile_noChange env now2 s1 c hcache hvne hled1
  have hdb := dbAfterBuild_cache env { s1 with isInitialized := false } c hcache
  refine ⟨?_, ?_, ?_, ?_, ?_, ?_, ?_⟩
  · rw [hled1]
    simp only [Option.getD_some]
    exact findChangedQuestions_self s1.questions
  · rw [hrun]; rfl
  · rw [hrun]; rfl
  · rw [hrun]
    show some (currentIndicesHashOf s1.questions) = _
    exact hled1.symm
  · rw [hrun]
    show some (calculateQuestionsHash s1.questionsRaw) = _
    exact hhash1.symm
  · rw [hrun]; rfl
  · rw [hrun]
    show (dbAfterBuild env { s1 with isInitialized := false }).1.vectors = _
    rw [hdb.2]
    exact hvec

/-- A state whose ledger holds a stale extra entry (index 1) while the
cache holds only that stale chunk: the corpus itself never changes
between the two passes below. -/
def staleLedgerState : SysState :=
  ⟨"raw", [sampleRecord],
   some (some ⟨[⟨"[INDEX:1]x", [], none⟩], some 3, "t0"⟩),
   some [(0, calculateQuestionHash sampleRecord), (1, "deadbeef")],
   none, none, [], false, [], none⟩

set_option maxRecDepth 8000 in
/-- C6 counterexample: over a corpus that never changes, the first
pass succeeds without calling the embedder (it only deletes the stale
chunk, emptying the cache), yet the second pass calls the embedder
once and grows the store from 0 to 1 vectors — so a second run over
an unchanged corpus is not in general a no-op. -/
theorem reconcile_second_pass_not_noop :
    (reconcile okEnv "t1" staleLedgerState).error = none
  ∧ (reconcile okEnv "t1" staleLedgerState).trace.countP isEmbedCall = 0
  ∧ (reconcile okEnv "t1" staleLedgerState).state.store.length = 0
  ∧ (reconcile okEnv "t2"
        (reconcile okEnv "t1" staleLedgerState).state).trace.countP
      isEmbedCall = 1
  ∧ (reconcile okEnv "t2"
        (reconcile okEnv "t1" staleLedgerState).state).state.store.length
      = 1 := by
  decide

set_option maxRecDepth 8000 in
/-- Witness for the amended C6: for a fresh one-record corpus the
first pass leaves a one-chunk cache, so the second pass is the pure
no-change rewrite of ledger and digest. -/
theorem reconcile_idempotent_witness :
    (reconcile okEnv "t2"
        (reconcile okEnv "t1" freshOneRecordState).state).trace =
      [Event.wroteIndicesHash, Event.wroteHash] := by
  have hne : ∀ c : Cache,
      (reconcile okEnv "t1" freshOneRecordState).state.cacheFile =
        some (some c) → c.vectors ≠ [] := by
    intro c hc
    rw [show (reconcile okEnv "t1" freshOneRecordState).state.cacheFile =
        some (some ⟨[⟨textWithMetadata 0 sampleRecord, [], none⟩],
          some 3, "t1"⟩) from rfl] at hc
    injection hc with hc
    injection hc with hc
    rw [← hc]
    simp
  exact (reconcile_idempotent okEnv "t1" "t2" freshOneRecordState rfl
    hne).2.2.1

end FaqServer
